import Mathlib

/-!
Verification development for the Tickeroo time-tracker core
(snapshot store with optimistic locking, session state machine,
idle/crash recovery), shallowly embedded from the TypeScript source
(`src/storage.ts`, `src/tracker.ts` and the full tracker variant).

Modelling conventions:
* Timestamps are integers (milliseconds since epoch).  The source stores
  them as ISO strings and converts with `new Date(...)`/`toISOString()`;
  the conversion is injective on millisecond timestamps, and every
  comparison the source performs on such strings (strict equality,
  `getTime()` arithmetic) factors through the timestamp, so entries carry
  the integer directly.
* `formatLocalDay` produces one `YYYY-MM-DD` string per local calendar
  day; days are modelled as the integer index of the local day (a
  faithful renaming of the string key).  The local timezone is a fixed
  offset `tz` (in ms) added before flooring to a day.
* JavaScript objects used as string-keyed records (`days`, `tasks`) are
  association lists: updating an existing key keeps its position,
  a fresh key is appended (JS property-order semantics).
* `JSON.parse`/`JSON.stringify` round-trips of the snapshot object are
  the identity on the modelled fields; a missing/unreadable file and an
  unparsable file both land in the single `catch` of
  `readProjectSnapshot` and are the constructors `missing` / `corrupt`.
  The legacy aggregate-file migration branch (a parsed object with a
  `projects` property) is outside the modelled state space.
* `Math.round(d / 1000)` for an integer millisecond difference `d` is
  `⌊(d + 500) / 1000⌋` (floor division), which matches JS round-half-up
  semantics for positive and negative arguments.
-/

namespace Tickeroo

/-! ## Time model -/

/-- Milliseconds in one day. -/
def dayMs : Int := 86400000

/-- `Math.round(d / 1000)` for an integer millisecond span `d`:
floor of `d/1000 + 1/2`, i.e. floor division of `d + 500` by `1000`. -/
def jsRoundDiv1000 (d : Int) : Int := (d + 500).fdiv 1000

/-- Embeds `Tracker.formatLocalDay`: the local calendar day of timestamp
`t` under fixed timezone offset `tz` (ms), as an integer day index (a
faithful renaming of the `YYYY-MM-DD` string, one value per local day). -/
def formatLocalDay (tz t : Int) : Int := (t + tz).fdiv dayMs

/-- Embeds `boundary.setHours(0, 0, 0, 0)`: the absolute timestamp of
local midnight of `t`'s local day. -/
def localMidnight (tz t : Int) : Int := dayMs * ((t + tz).fdiv dayMs) - tz

/-! ## Data model (`src/types.ts`) -/

/-- `SessionEntry`.  `endTime` embeds the optional `end` field (`none`
means pending/unterminated). -/
structure SessionEntry where
  task : String
  start : Int
  endTime : Option Int
  seconds : Int
deriving Repr, DecidableEq

/-- `DayRecord`.  `tasks` maps task name to accumulated seconds;
`entries` is optional in the stored JSON. -/
structure DayRecord where
  totalSeconds : Int
  tasks : List (String × Int)
  entries : Option (List SessionEntry)
deriving Repr, DecidableEq

/-- `ActiveSession` as used by the tracker (`current`); the full tracker
variant also stores `entryDay` (the day bucket of the provisional
entry), absent on legacy currents. -/
structure ActiveSession where
  task : String
  start : Int
  entryDay : Option Int
deriving Repr, DecidableEq

/-- `ProjectSnapshot`.  `current` collapses `null` and an absent field
(the source only ever tests truthiness and `?.` on it). -/
structure ProjectSnapshot where
  days : List (Int × DayRecord)
  lastTask : Option String
  current : Option ActiveSession
  version : Option Int
  lastModified : Option Int
deriving Repr, DecidableEq

/-! ## Association-list helpers (JS object-as-record semantics) -/

/-- First value bound to key `k`. -/
def alGet {α β : Type} [DecidableEq α] : List (α × β) → α → Option β
  | [], _ => none
  | (a, b) :: t, k => if a = k then some b else alGet t k

/-- `m[k] = v`: overwrite the first binding in place, else append. -/
def alSet {α β : Type} [DecidableEq α] : List (α × β) → α → β → List (α × β)
  | [], k, v => [(k, v)]
  | (a, b) :: t, k, v => if a = k then (k, v) :: t else (a, b) :: alSet t k v

/-- Modify the value at key `k` in place (no-op if absent). -/
def alModify {α β : Type} [DecidableEq α] : List (α × β) → α → (β → β) → List (α × β)
  | [], _, _ => []
  | (a, b) :: t, k, f => if a = k then (a, f b) :: t else (a, b) :: alModify t k f

/-! ## Snapshot store (`src/storage.ts`) -/

/-- Content of one stored file: absent, unreadable/unparsable, or a
successfully parsed JSON object. -/
inductive FileContent where
  | missing
  | corrupt
  | parsed (raw : ProjectSnapshot)
deriving Repr, DecidableEq

/-- The per-project storage: the snapshot file and its `.bak` sibling
(`atomicWrite` maintains the sibling; `readProjectSnapshot` is about to
be seen never to consult it). -/
structure Disk where
  main : FileContent
  bak : FileContent
deriving Repr, DecidableEq

/-- Raw parsed files are snapshots whose fields may all be absent; we
reuse `ProjectSnapshot` with `Option` fields as the parse result, where
a `parsed` file's field values are what `JSON.parse` yielded.  The
normalisation applied by `readProjectSnapshot` (lines 425-431) is: -/
def normalizeParsed (raw : ProjectSnapshot) : ProjectSnapshot :=
  { days := raw.days
    lastTask := raw.lastTask
    current := raw.current
    version := some (raw.version.getD 1)
    lastModified := some (raw.lastModified.getD 0) }

/-- Embeds `StorageService.readProjectSnapshot` (storage.ts:397-435) for
the non-legacy path: a parsed file is normalised with defaults
(`version ?? 1`, `lastModified ?? 0`); any read or parse failure lands
in the catch and returns `{ days: {}, lastModified: Date.now() }` where
`now` is the wall clock at read time.  The `.bak` sibling is never
consulted. -/
def readProjectSnapshot (now : Int) (disk : Disk) : ProjectSnapshot :=
  match disk.main with
  | .parsed raw => normalizeParsed raw
  | _ => { days := [], lastTask := none, current := none,
           version := none, lastModified := some now }

/-- The optimistic-lock test of `saveProjectSnapshot` (storage.ts:86-95):
conflict iff both the snapshot being written and the freshly read
on-disk snapshot have a defined `lastModified` and the values differ. -/
def snapshotConflict (readNow : Int) (disk : Disk) (snapshot : ProjectSnapshot) : Bool :=
  match snapshot.lastModified, (readProjectSnapshot readNow disk).lastModified with
  | some a, some b => decide (a ≠ b)
  | _, _ => false

/-- Outcomes of the underlying file-system operations inside
`atomicWrite` (storage.ts:441-472): whether the temp-file write, the
best-effort backup copy, the rename, and the fallback copy succeed. -/
structure FsBehavior where
  tempWriteOk : Bool
  backupOk : Bool
  renameOk : Bool
  copyOk : Bool
deriving Repr, DecidableEq

/-- Embeds `StorageService.atomicWrite`: write temp file, best-effort
copy the existing target to `.bak`, rename (or copy) the temp file into
place.  Every failure is caught: a failed temp write or a failed
rename+copy leaves the target untouched and the function returns
normally (the outer catch logs and cleans up, storage.ts:464-471). -/
def atomicWrite (fs : FsBehavior) (disk : Disk) (content : ProjectSnapshot) : Disk :=
  if fs.tempWriteOk then
    let disk1 :=
      match disk.main with
      | .missing => disk
      | _ => if fs.backupOk then { disk with bak := disk.main } else disk
    if fs.renameOk then { disk1 with main := .parsed content }
    else if fs.copyOk then { disk1 with main := .parsed content }
    else disk1
  else disk

/-- The single error `saveProjectSnapshot` can raise
(`SNAPSHOT_CONFLICT`). -/
inductive SaveError where
  | conflict
deriving Repr, DecidableEq

/-- What a successful save leaves behind: the serialised snapshot (new
`version`/`lastModified`), the resulting disk, and the in-memory cache
entry (`projectCache.set(normalized, { ...serializable })`). -/
structure SaveResult where
  serializable : ProjectSnapshot
  disk : Disk
  cache : ProjectSnapshot
deriving Repr, DecidableEq

/-- The serialisation step of `saveProjectSnapshot` (storage.ts:97-101):
stamp schema version `1` and `lastModified := Date.now()`. -/
def serializeSnapshot (snapshot : ProjectSnapshot) (writeNow : Int) : ProjectSnapshot :=
  { snapshot with version := some 1, lastModified := some writeNow }

/-- Embeds `StorageService.saveProjectSnapshot` (storage.ts:75-107).
`readNow` is the wall clock during the optimistic-lock re-read,
`writeNow` the wall clock when the new `lastModified` is stamped. -/
def saveProjectSnapshot (readNow writeNow : Int) (fs : FsBehavior) (disk : Disk)
    (snapshot : ProjectSnapshot) : Except SaveError SaveResult :=
  if snapshotConflict readNow disk snapshot then
    .error .conflict
  else
    let serializable := serializeSnapshot snapshot writeNow
    .ok { serializable := serializable
          disk := atomicWrite fs disk serializable
          cache := serializable }

/-- Modelled from the spec: the `read(projectPath)` contract of §4.1
(this behaviour is absent from `src/storage.ts`; the sibling-backup
fallback exists only in the legacy `readData` variant): on a missing
file return the empty default with no `lastModified`; on corrupt JSON
fall back to the sibling backup file, and only if that fails return the
empty default. -/
def specReadProjectSnapshot (disk : Disk) : ProjectSnapshot :=
  match disk.main with
  | .parsed raw => normalizeParsed raw
  | .missing => { days := [], lastTask := none, current := none,
                  version := none, lastModified := none }
  | .corrupt =>
    match disk.bak with
    | .parsed raw => normalizeParsed raw
    | _ => { days := [], lastTask := none, current := none,
             version := none, lastModified := none }

/-! ## Session tracker (full variant): snapshot mutation helpers -/

/-- Embeds `Tracker.ensureDayRecord`: create the day bucket
`{ totalSeconds: 0, tasks: {}, entries: [] }` if absent; otherwise make
sure its `entries` array exists. -/
def ensureDayRecordS (s : ProjectSnapshot) (day : Int) : ProjectSnapshot :=
  match alGet s.days day with
  | none =>
    { s with days := alSet s.days day ⟨0, [], some []⟩ }
  | some r =>
    match r.entries with
    | none => { s with days := alModify s.days day fun r0 => { r0 with entries := some [] } }
    | some _ => s

/-- Apply `f` to the day bucket `day` of `s` (bucket assumed present). -/
def updateDay (s : ProjectSnapshot) (day : Int) (f : DayRecord → DayRecord) : ProjectSnapshot :=
  { s with days := alModify s.days day f }

/-- `tasks[task] = (tasks[task] || 0) + sec` (JS `||`: an absent key and
a stored `0` both yield `0`). -/
def bumpTask (tasks : List (String × Int)) (task : String) (sec : Int) : List (String × Int) :=
  alSet tasks task ((alGet tasks task).getD 0 + sec)

/-- Index of the first entry with the given `start` timestamp
(`entries.findIndex((entry) => entry.start === startIso)`). -/
def findStartIdx : List SessionEntry → Int → Option Nat
  | [], _ => none
  | e :: t, startIso =>
    if e.start = startIso then some 0
    else (findStartIdx t startIso).map (· + 1)

/-- Index of the first pending entry
(`entries.findIndex((entry) => !entry.end)`). -/
def findPendingIdx : List SessionEntry → Option Nat
  | [] => none
  | e :: t =>
    if e.endTime.isNone then some 0
    else (findPendingIdx t).map (· + 1)

/-- The in-place mutation of `ensurePendingEntry` on a found entry:
`entry.task = task; entry.seconds = entry.seconds ?? 0;
delete entry.end` (seconds are always present in the model, so the
`?? 0` is the identity). -/
def setEntryPending : List SessionEntry → Nat → String → List SessionEntry
  | [], _, _ => []
  | e :: t, 0, task => { e with task := task, endTime := none } :: t
  | e :: t, n + 1, task => e :: setEntryPending t n task

/-- The in-place finalisation a stop performs on the located entry:
`entry.task = ...; entry.start = ...; entry.end = ...;
entry.seconds = ...`. -/
def setEntryFinal : List SessionEntry → Nat → String → Int → Int → Int → List SessionEntry
  | [], _, _, _, _, _ => []
  | _ :: t, 0, task, start, endT, secs => ⟨task, start, some endT, secs⟩ :: t
  | e :: t, n + 1, task, start, endT, secs => e :: setEntryFinal t n task start endT secs

/-- Embeds `Tracker.ensurePendingEntry` (part_007:563-586): reuse the
first entry of the bucket with the same start (making it pending again),
else push a fresh pending entry. -/
def ensurePendingEntryR (r : DayRecord) (task : String) (startIso : Int) : DayRecord :=
  let es := r.entries.getD []
  match findStartIdx es startIso with
  | some i => { r with entries := some (setEntryPending es i task) }
  | none => { r with entries := some (es ++ [⟨task, startIso, none, 0⟩]) }

/-- The entries of the day bucket `day` (empty if the bucket or its
`entries` array is absent). -/
def entriesOf (s : ProjectSnapshot) (day : Int) : List SessionEntry :=
  match alGet s.days day with
  | some r => r.entries.getD []
  | none => []

/-- Embeds `Tracker.findSessionEntry` (part_007:588-606): index of the
first entry of bucket `day` whose start matches, if any. -/
def findSessionEntry (s : ProjectSnapshot) (day : Int) (startIso : Int) : Option Nat :=
  findStartIdx (entriesOf s day) startIso

/-- Embeds `Tracker.findSessionEntryAnywhere` (part_007:608-623): scan
the day buckets in insertion order for the first start match. -/
def findSessionEntryAnywhere : List (Int × DayRecord) → Int → Option (Int × Nat)
  | [], _ => none
  | (day, r) :: t, startIso =>
    match findStartIdx (r.entries.getD []) startIso with
    | some i => some (day, i)
    | none => findSessionEntryAnywhere t startIso

/-- Embeds `Tracker.findFirstIncompleteEntry` (part_007:625-642): the
first pending entry anywhere in `days`, as (day, index). -/
def findFirstIncompleteEntry (s : ProjectSnapshot) : Option (Int × Nat) :=
  go s.days
where
  go : List (Int × DayRecord) → Option (Int × Nat)
    | [] => none
    | (day, r) :: t =>
      match findPendingIdx (r.entries.getD []) with
      | some i => some (day, i)
      | none => go t

/-- The entry-location chain of `stopTimerForEntry` (part_007:382-385):
preferred day bucket, then the stop-day bucket, then a full scan. -/
def locateEntry (s : ProjectSnapshot) (preferredDay stopDay startIso : Int) :
    Option (Int × Nat) :=
  match findSessionEntry s preferredDay startIso with
  | some i => some (preferredDay, i)
  | none =>
    match findSessionEntry s stopDay startIso with
    | some i => some (stopDay, i)
    | none => findSessionEntryAnywhere s.days startIso

/-- Embeds the snapshot mutation of `Tracker.start` after all
preconditions passed (part_007:263-273): insert/reuse the provisional
entry in the start day's bucket, set `current` (with `entryDay`) and
`lastTask`. -/
def startMutation (tz : Int) (s : ProjectSnapshot) (task : String) (at_ : Int) :
    ProjectSnapshot :=
  let entryDay := formatLocalDay tz at_
  let s1 := ensureDayRecordS s entryDay
  let s2 := updateDay s1 entryDay fun r => ensurePendingEntryR r task at_
  { s2 with current := some ⟨task, at_, some entryDay⟩, lastTask := some task }

/-- The single-day finalisation branch of `stopTimerForEntry`
(part_007:437-447): overwrite the located entry with the finalised
session and fold `seconds` into the bucket's totals. -/
def stopSingleDay (s1 : ProjectSnapshot) (c : ActiveSession) (effectiveStop seconds : Int)
    (day : Int) (idx : Nat) : ProjectSnapshot :=
  updateDay (ensureDayRecordS s1 day) day fun r =>
    { r with
      entries := some (setEntryFinal (r.entries.getD []) idx c.task c.start effectiveStop seconds)
      totalSeconds := r.totalSeconds + seconds
      tasks := bumpTask r.tasks c.task seconds }

/-- The midnight-crossover branch of `stopTimerForEntry`
(part_007:402-436): finalise the located entry at local midnight of the
stop day, then append a second finalised entry from midnight to
`effectiveStop` in the stop day's bucket, folding each partial duration
into its own bucket's totals. -/
def stopCrossDay (tz : Int) (s1 : ProjectSnapshot) (c : ActiveSession) (effectiveStop : Int)
    (day : Int) (idx : Nat) (stopDay : Int) : ProjectSnapshot :=
  let boundary := localMidnight tz effectiveStop
  let firstSeconds := max 0 (jsRoundDiv1000 (boundary - c.start))
  let sA := updateDay (ensureDayRecordS s1 day) day fun r =>
    { r with
      entries := some (setEntryFinal (r.entries.getD []) idx c.task c.start boundary firstSeconds)
      totalSeconds := r.totalSeconds + firstSeconds
      tasks := bumpTask r.tasks c.task firstSeconds }
  let secondSeconds := max 0 (jsRoundDiv1000 (effectiveStop - boundary))
  updateDay (ensureDayRecordS sA stopDay) stopDay fun r =>
    { r with
      entries := some ((r.entries.getD []) ++ [⟨c.task, boundary, some effectiveStop, secondSeconds⟩])
      totalSeconds := r.totalSeconds + secondSeconds
      tasks := bumpTask r.tasks c.task secondSeconds }

/-- Embeds the snapshot mutation of `Tracker.stopTimerForEntry`
(part_007:363-450) given `snapshot.current = some c`: clamp the stop
time, locate (or synthesise) the provisional entry, finalise it —
splitting at local midnight when the stop day differs from the entry's
bucket — fold seconds into day/task totals, set `lastTask`, clear
`current`. -/
def stopMutation (tz : Int) (s : ProjectSnapshot) (c : ActiveSession) (stopTime : Int) :
    ProjectSnapshot :=
  let start := c.start
  let effectiveStop := if stopTime < start then start else stopTime
  let seconds := max 0 (jsRoundDiv1000 (effectiveStop - start))
  let stopDay := formatLocalDay tz effectiveStop
  let preferredDay := c.entryDay.getD (formatLocalDay tz start)
  let located : ProjectSnapshot × Int × Nat :=
    match locateEntry s preferredDay stopDay c.start with
    | some di => (s, di.1, di.2)
    | none =>
      let s' := ensureDayRecordS s stopDay
      ((updateDay s' stopDay fun r =>
          { r with entries := some ((r.entries.getD []) ++ [⟨c.task, c.start, none, 0⟩]) }),
       stopDay, (entriesOf s' stopDay).length)
  let s2 :=
    if located.2.1 ≠ stopDay then
      stopCrossDay tz located.1 c effectiveStop located.2.1 located.2.2 stopDay
    else
      stopSingleDay located.1 c effectiveStop seconds located.2.1 located.2.2
  { s2 with lastTask := some c.task, current := none }

/-! ## Manual end-time resolution (part_007:692-777) -/

/-- Embeds `Tracker.buildEndDateFromInput` (part_007:742-760): the user
input is the parsed `HH:MM` pair; out-of-range values (and, upstream,
strings failing the `HH:MM` shape, which never produce a numeric pair)
yield `null`, otherwise the start's local day at that wall-clock time
(`result.setHours(hours, minutes, 0, 0)`). -/
def buildEndDateFromInput (tz : Int) (hours minutes : Int) (baseDate : Int) : Option Int :=
  if hours < 0 ∨ 23 < hours ∨ minutes < 0 ∨ 59 < minutes then none
  else some (localMidnight tz baseDate + hours * 3600000 + minutes * 60000)

/-- Embeds `Tracker.validateEndTimeInput` (part_007:728-740) on a parsed
`HH:MM` pair (the leading regex test only guards the string shape). -/
def validateEndTimeInput (tz : Int) (hours minutes : Int) (start : Int) : Option String :=
  match buildEndDateFromInput tz hours minutes start with
  | none => some "Invalid format"
  | some endDate =>
    if endDate < start then some "End time cannot be before start time"
    else none

/-- Embeds `Tracker.finalizeManualEntry` (part_007:762-777) applied to
the entry at `idx` of bucket `r`: set `end`, compute `seconds`, fold
into `totalSeconds` and the per-task total. -/
def finalizeManualEntryR (r : DayRecord) (idx : Nat) (endDate : Int) : DayRecord :=
  match (r.entries.getD [])[idx]? with
  | none => r
  | some e =>
    let seconds := max 0 (jsRoundDiv1000 (endDate - e.start))
    { r with
      entries := some (setEntryFinal (r.entries.getD []) idx e.task e.start endDate seconds)
      totalSeconds := r.totalSeconds + seconds
      tasks := bumpTask r.tasks e.task seconds }

/-- Embeds `Tracker.promptForManualEndTime` (part_007:692-726).  The
input is the submitted `HH:MM` pair, `none` when the user dismissed the
box; `showInputBox`'s `validateInput` contract means a pair rejected by
`validateEndTimeInput` can never be submitted, so such an input behaves
as a dismissal.  Returns the snapshot with the pending entry finalised,
or `none` when resolution was abandoned. -/
def promptForManualEndTime (tz : Int) (s : ProjectSnapshot) (day : Int) (idx : Nat)
    (input : Option (Int × Int)) : Option ProjectSnapshot :=
  match (entriesOf s day)[idx]? with
  | none => none
  | some e =>
    match input with
    | none => none
    | some (h, m) =>
      if (validateEndTimeInput tz h m e.start).isSome then none
      else
        match buildEndDateFromInput tz h m e.start with
        | none => none
        | some endDate => some (updateDay s day fun r => finalizeManualEntryR r idx endDate)

/-- The environment of one run of `ensurePendingEntriesResolved`: per
iteration, the user's modal choice (`true` = "Set End Time"), the
submitted end time, whether the save hits a `SNAPSHOT_CONFLICT`, the
wall clock at save time, and the snapshot a conflict-triggered
`loadLatestSnapshot` returns. -/
structure ResEnv where
  choices : Nat → Bool
  inputs : Nat → Option (Int × Int)
  saveOk : Nat → Bool
  saveNow : Nat → Int
  refreshed : Nat → ProjectSnapshot

/-- Result of the resolution loop, with the snapshots it persisted in
order (`fuelOut` truncates the unbounded `while (true)`). -/
inductive ResOutcome where
  | cancelled (writes : List ProjectSnapshot)
  | resolved (snap : ProjectSnapshot) (writes : List ProjectSnapshot)
  | fuelOut (writes : List ProjectSnapshot)
deriving Repr

/-- Embeds `Tracker.ensurePendingEntriesResolved` (part_007:644-690):
loop until no pending entry remains; each iteration asks the user,
finalises the chosen end time, saves (successful saves stamp
`version`/`lastModified` and are recorded as writes), and on a conflict
reloads the snapshot and restarts the scan. -/
def resolveLoop (tz : Int) (env : ResEnv) : Nat → Nat → ProjectSnapshot → ResOutcome
  | 0, _, _ => .fuelOut []
  | fuel + 1, k, s =>
    match findFirstIncompleteEntry s with
    | none => .resolved s []
    | some (day, idx) =>
      if env.choices k then
        match promptForManualEndTime tz s day idx (env.inputs k) with
        | none => .cancelled []
        | some s' =>
          if env.saveOk k then
            let w := serializeSnapshot s' (env.saveNow k)
            match resolveLoop tz env fuel (k + 1) s' with
            | .cancelled ws => .cancelled (w :: ws)
            | .resolved s2 ws => .resolved s2 (w :: ws)
            | .fuelOut ws => .fuelOut (w :: ws)
          else
            resolveLoop tz env fuel (k + 1) (env.refreshed k)
      else .cancelled []

/-! ## The `start` procedure (part_007:224-346) -/

/-- Environment of one run of `Tracker.start`: the snapshot the initial
`loadLatestSnapshot` returns, whether this window already holds an
in-memory session (and the snapshots its internal `stop()` persists,
opaque here: they concern the previously active project), the
resolution environment and a fuel bound for its loop, whether the main
save conflicts (and the wall clock if it succeeds), the snapshot a
conflict-triggered refresh returns, and the post-save verification read
(`none` models a read that throws). -/
structure StartEnv where
  tz : Int
  refreshed : ProjectSnapshot
  hasActiveSession : Bool
  innerStopWrites : List ProjectSnapshot
  resEnv : ResEnv
  resFuel : Nat
  mainSaveOk : Bool
  mainSaveNow : Int
  conflictRefreshed : ProjectSnapshot
  verifyRead : Option ProjectSnapshot

/-- The ways `Tracker.start` can terminate. -/
inductive StartResult where
  | alreadyRunning
  | cancelled
  | fuelOut
  | conflictAlreadyRunning
  | conflictRetry
  | verifyFailed
  | started
deriving Repr, DecidableEq

/-- Embeds the control flow of `Tracker.start` (part_007:224-346),
returning its outcome and the project snapshots it persisted, in
order: refresh from disk; reject if `current` is set; stop this
window's own session; resolve pending entries; re-check `current`;
apply the start mutation and save; on `SNAPSHOT_CONFLICT` refresh and
either surface "already running" or ask the user to retry — never
reapplying the mutation; after a successful save verify that the
provisional entry and `current` landed on disk. -/
def startProcedure (env : StartEnv) (task : String) (at_ : Int) :
    StartResult × List ProjectSnapshot :=
  let snapshot := env.refreshed
  if snapshot.current.isSome then (.alreadyRunning, [])
  else
    let innerWrites := if env.hasActiveSession then env.innerStopWrites else []
    match resolveLoop env.tz env.resEnv env.resFuel 0 snapshot with
    | .cancelled ws => (.cancelled, innerWrites ++ ws)
    | .fuelOut ws => (.fuelOut, innerWrites ++ ws)
    | .resolved s ws =>
      if s.current.isSome then (.alreadyRunning, innerWrites ++ ws)
      else
        let s' := startMutation env.tz s task at_
        if env.mainSaveOk then
          let saved := serializeSnapshot s' env.mainSaveNow
          match env.verifyRead with
          | none => (.verifyFailed, innerWrites ++ ws ++ [saved])
          | some v =>
            let entryDay := formatLocalDay env.tz at_
            let hasEntry := (entriesOf v entryDay).any fun e => decide (e.start = at_)
            let currentOk :=
              match v.current with
              | some cc => decide (cc.start = at_) && decide (cc.task = task)
              | none => false
            if hasEntry && currentOk then (.started, innerWrites ++ ws ++ [saved])
            else (.verifyFailed, innerWrites ++ ws ++ [saved])
        else
          if env.conflictRefreshed.current.isSome then
            (.conflictAlreadyRunning, innerWrites ++ ws)
          else (.conflictRetry, innerWrites ++ ws)

/-! ## Tracker initialisation (part_007:44-78, tracker.ts:34-68) -/

/-- The idle threshold of the tracker (`5 * 60 * 1000` ms). -/
def idleThreshold : Int := 5 * 60 * 1000

/-- Embeds the crash/idle recovery decision of `Tracker.init`
(part_007:66-74): when a resurrected active session exists and a
persisted last-activity timestamp is present (and non-zero — JS
truthiness), `stop` is invoked at `max(start, min(lastActivity, now))`;
the idle threshold is not consulted.  Returns the stop timestamp, or
`none` when no stop is invoked. -/
def initAutoStop (activeStart : Option Int) (lastActivityMs : Option Int) (nowMs : Int) :
    Option Int :=
  match activeStart, lastActivityMs with
  | some st, some la =>
    if la ≠ 0 then some (max st (min la nowMs)) else none
  | _, _ => none

/-! ## The single-pending invariant -/

/-- All session entries of a snapshot, in day-bucket insertion order. -/
def allEntries (s : ProjectSnapshot) : List SessionEntry :=
  s.days.flatMap fun p => p.2.entries.getD []

/-- The pending (unterminated) entries of a snapshot. -/
def pendings (s : ProjectSnapshot) : List SessionEntry :=
  (allEntries s).filter fun e => e.endTime.isNone

/-- The invariant of claim C5: when `current` is set, exactly one
pending entry exists and its start matches `current.start`; when
`current` is null, no pending entry exists (so `days` never holds more
than one pending entry). -/
def Inv (s : ProjectSnapshot) : Prop :=
  match s.current with
  | some c =>
    match pendings s with
    | [e] => e.start = c.start
    | _ => False
  | none => pendings s = []

instance instDecidableInv (s : ProjectSnapshot) : Decidable (Inv s) := by
  unfold Inv
  cases s.current with
  | none => exact inferInstance
  | some c =>
    cases pendings s with
    | nil => exact inferInstance
    | cons e t =>
      cases t with
      | nil => exact inferInstance
      | cons e' t' => exact inferInstance

/-! ## Accessors used by the statements -/

/-- `days[d].totalSeconds`, `0` when the bucket is absent. -/
def dayTotal (s : ProjectSnapshot) (d : Int) : Int :=
  ((alGet s.days d).map (·.totalSeconds)).getD 0

/-- `days[d].tasks`, `{}` when the bucket is absent. -/
def dayTasks (s : ProjectSnapshot) (d : Int) : List (String × Int) :=
  ((alGet s.days d).map (·.tasks)).getD []

/-- `days[d].tasks[t]`, `0` when absent. -/
def taskTotal (s : ProjectSnapshot) (d : Int) (t : String) : Int :=
  (alGet (dayTasks s d) t).getD 0

/-! ## Association-list lemmas -/

theorem alGet_alSet_self {α β : Type} [DecidableEq α] (m : List (α × β)) (k : α) (v : β) :
    alGet (alSet m k v) k = some v := by
  induction m with
  | nil => simp [alGet, alSet]
  | cons p t ih =>
    obtain ⟨a, b⟩ := p
    by_cases h : a = k
    · simp [alGet, alSet, h]
    · simp [alGet, alSet, h, ih]

theorem alGet_alSet_ne {α β : Type} [DecidableEq α] (m : List (α × β)) (k k' : α) (v : β)
    (h : k' ≠ k) : alGet (alSet m k v) k' = alGet m k' := by
  induction m with
  | nil => simp [alGet, alSet, Ne.symm h]
  | cons p t ih =>
    obtain ⟨a, b⟩ := p
    by_cases ha : a = k
    · subst ha
      simp [alGet, alSet, Ne.symm h]
    · simp [alGet, alSet, ha, ih]

theorem alGet_alModify_self {α β : Type} [DecidableEq α] (m : List (α × β)) (k : α)
    (f : β → β) : alGet (alModify m k f) k = (alGet m k).map f := by
  induction m with
  | nil => simp [alGet, alModify]
  | cons p t ih =>
    obtain ⟨a, b⟩ := p
    by_cases h : a = k
    · simp [alGet, alModify, h]
    · simp [alGet, alModify, h, ih]

theorem alGet_alModify_ne {α β : Type} [DecidableEq α] (m : List (α × β)) (k k' : α)
    (f : β → β) (h : k' ≠ k) : alGet (alModify m k f) k' = alGet m k' := by
  induction m with
  | nil => simp [alModify]
  | cons p t ih =>
    obtain ⟨a, b⟩ := p
    by_cases ha : a = k
    · subst ha
      simp [alGet, alModify, Ne.symm h]
    · simp [alGet, alModify, ha, ih]

theorem alModify_of_get_none {α β : Type} [DecidableEq α] (m : List (α × β)) (k : α)
    (f : β → β) (h : alGet m k = none) : alModify m k f = m := by
  induction m with
  | nil => simp [alModify]
  | cons p t ih =>
    obtain ⟨a, b⟩ := p
    by_cases ha : a = k
    · simp [alGet, ha] at h
    · simp [alGet, ha] at h
      simp [alModify, ha, ih h]

/-- Splitting an association list at the first occurrence of a present
key; `alModify` rewrites exactly that occurrence. -/
theorem alGet_decomp {α β : Type} [DecidableEq α] (m : List (α × β)) (k : α) (v : β)
    (h : alGet m k = some v) :
    ∃ pre post, m = pre ++ (k, v) :: post ∧ alGet pre k = none ∧
      ∀ f, alModify m k f = pre ++ (k, f v) :: post := by
  induction m with
  | nil => simp [alGet] at h
  | cons p t ih =>
    obtain ⟨a, b⟩ := p
    by_cases ha : a = k
    · subst ha
      simp [alGet] at h
      subst h
      exact ⟨[], t, rfl, rfl, fun f => by simp [alModify]⟩
    · simp [alGet, ha] at h
      obtain ⟨pre, post, hm, hpre, hmod⟩ := ih h
      refine ⟨(a, b) :: pre, post, by simp [hm], by simp [alGet, ha, hpre], fun f => ?_⟩
      simp [alModify, ha, hmod f]

theorem alSet_of_get_none {α β : Type} [DecidableEq α] (m : List (α × β)) (k : α) (v : β)
    (h : alGet m k = none) : alSet m k v = m ++ [(k, v)] := by
  induction m with
  | nil => simp [alSet]
  | cons p t ih =>
    obtain ⟨a, b⟩ := p
    by_cases ha : a = k
    · simp [alGet, ha] at h
    · simp [alGet, ha] at h
      simp [alSet, ha, ih h]

theorem alModify_alModify {α β : Type} [DecidableEq α] (m : List (α × β)) (k : α)
    (f g : β → β) : alModify (alModify m k f) k g = alModify m k (fun b => g (f b)) := by
  induction m with
  | nil => simp [alModify]
  | cons p t ih =>
    obtain ⟨a, b⟩ := p
    by_cases ha : a = k
    · simp [alModify, ha]
    · simp [alModify, ha, ih]

theorem alGet_mem_keys {α β : Type} [DecidableEq α] (m : List (α × β)) (k : α) (v : β)
    (h : alGet m k = some v) : k ∈ m.map Prod.fst := by
  induction m with
  | nil => simp [alGet] at h
  | cons p t ih =>
    obtain ⟨a, b⟩ := p
    by_cases ha : a = k
    · simp [ha]
    · simp [alGet, ha] at h
      simp [ih h]

/-! ## Snapshot-level lemmas -/

theorem updateDay_updateDay (s : ProjectSnapshot) (d : Int) (f g : DayRecord → DayRecord) :
    updateDay (updateDay s d f) d g = updateDay s d fun r => g (f r) := by
  simp [updateDay, alModify_alModify]

theorem allEntries_updateDay (s : ProjectSnapshot) (d : Int) (f : DayRecord → DayRecord) :
    allEntries (updateDay s d f) = (updateDay s d f).days.flatMap fun p => p.2.entries.getD [] :=
  rfl

/-- Splitting the flattened entry list of a snapshot at a present day
bucket; `updateDay` rewrites exactly that bucket's contribution. -/
theorem allEntries_decomp (s : ProjectSnapshot) (d : Int) (r : DayRecord)
    (h : alGet s.days d = some r) :
    ∃ A B, allEntries s = A ++ r.entries.getD [] ++ B ∧
      ∀ f, allEntries (updateDay s d f) = A ++ (f r).entries.getD [] ++ B := by
  obtain ⟨pre, post, hm, _, hmod⟩ := alGet_decomp s.days d r h
  refine ⟨pre.flatMap (fun p => p.2.entries.getD []),
          post.flatMap (fun p => p.2.entries.getD []), ?_, ?_⟩
  · simp [allEntries, hm, List.flatMap_append]
  · intro f
    simp [allEntries, updateDay, hmod f, List.flatMap_append]

theorem alGet_updateDay_self (s : ProjectSnapshot) (d : Int) (f : DayRecord → DayRecord)
    (r : DayRecord) (h : alGet s.days d = some r) :
    alGet (updateDay s d f).days d = some (f r) := by
  simp [updateDay, alGet_alModify_self, h]

theorem alGet_updateDay_ne (s : ProjectSnapshot) (d d' : Int) (f : DayRecord → DayRecord)
    (h : d' ≠ d) : alGet (updateDay s d f).days d' = alGet s.days d' := by
  simp [updateDay, alGet_alModify_ne _ _ _ _ h]

theorem ensure_of_entries_some (s : ProjectSnapshot) (d : Int) (r : DayRecord)
    (l : List SessionEntry) (hr : alGet s.days d = some r) (hl : r.entries = some l) :
    ensureDayRecordS s d = s := by
  simp only [ensureDayRecordS, hr, hl]

theorem alGet_ensure_self (s : ProjectSnapshot) (d : Int) :
    alGet (ensureDayRecordS s d).days d =
      some ⟨dayTotal s d, dayTasks s d, some (entriesOf s d)⟩ := by
  cases hr : alGet s.days d with
  | none =>
    simp only [ensureDayRecordS, hr]
    simp [alGet_alSet_self, dayTotal, dayTasks, entriesOf, hr]
  | some r =>
    obtain ⟨ts, tk, en⟩ := r
    cases hl : en with
    | none =>
      subst hl
      simp only [ensureDayRecordS, hr]
      simp [alGet_alModify_self, hr, dayTotal, dayTasks, entriesOf]
    | some l =>
      subst hl
      simp only [ensureDayRecordS, hr]
      simp [hr, dayTotal, dayTasks, entriesOf]

theorem alGet_ensure_ne (s : ProjectSnapshot) (d d' : Int) (h : d' ≠ d) :
    alGet (ensureDayRecordS s d).days d' = alGet s.days d' := by
  cases hr : alGet s.days d with
  | none =>
    simp only [ensureDayRecordS, hr]
    simp [alGet_alSet_ne _ _ _ _ h]
  | some r =>
    cases hl : r.entries with
    | none =>
      simp only [ensureDayRecordS, hr, hl]
      simp [alGet_alModify_ne _ _ _ _ h]
    | some l => simp only [ensureDayRecordS, hr, hl]

theorem allEntries_ensure (s : ProjectSnapshot) (d : Int) :
    allEntries (ensureDayRecordS s d) = allEntries s := by
  cases hr : alGet s.days d with
  | none =>
    simp only [ensureDayRecordS, hr]
    simp [allEntries, alSet_of_get_none _ _ _ hr, List.flatMap_append]
  | some r =>
    cases hl : r.entries with
    | none =>
      obtain ⟨pre, post, hm, _, hmod⟩ := alGet_decomp s.days d r hr
      simp only [ensureDayRecordS, hr, hl, allEntries]
      rw [hmod, hm]
      simp [List.flatMap_append, hl]
    | some l => simp only [ensureDayRecordS, hr, hl]

theorem current_ensure (s : ProjectSnapshot) (d : Int) :
    (ensureDayRecordS s d).current = s.current := by
  cases hr : alGet s.days d with
  | none => simp only [ensureDayRecordS, hr]
  | some r =>
    cases hl : r.entries with
    | none => simp only [ensureDayRecordS, hr, hl]
    | some l => simp only [ensureDayRecordS, hr, hl]

/-! ## Entry-list lemmas -/

theorem findStartIdx_none_iff (es : List SessionEntry) (t : Int) :
    findStartIdx es t = none ↔ ∀ e ∈ es, e.start ≠ t := by
  induction es with
  | nil => simp [findStartIdx]
  | cons e tl ih =>
    by_cases h : e.start = t
    · simp [findStartIdx, h]
    · simp [findStartIdx, h, ih]

theorem findStartIdx_some (es : List SessionEntry) (t : Int) (i : Nat)
    (h : findStartIdx es t = some i) : ∃ e, es[i]? = some e ∧ e.start = t := by
  induction es generalizing i with
  | nil => simp [findStartIdx] at h
  | cons e tl ih =>
    by_cases he : e.start = t
    · simp [findStartIdx, he] at h
      subst h
      exact ⟨e, by simp, he⟩
    · simp [findStartIdx, he] at h
      obtain ⟨j, hj, hij⟩ := h
      obtain ⟨x, hx, hxs⟩ := ih j hj
      exact ⟨x, by simpa [← hij] using hx, hxs⟩

theorem findStartIdx_append_of_none (es : List SessionEntry) (x : SessionEntry) (t : Int)
    (h : findStartIdx es t = none) (hx : x.start = t) :
    findStartIdx (es ++ [x]) t = some es.length := by
  induction es with
  | nil => simp [findStartIdx, hx]
  | cons e tl ih =>
    by_cases he : e.start = t
    · simp [findStartIdx, he] at h
    · simp [findStartIdx, he] at h ⊢
      simp [ih h]

theorem setEntryFinal_append_at_length (es : List SessionEntry) (x : SessionEntry)
    (task : String) (st endT secs : Int) :
    setEntryFinal (es ++ [x]) es.length task st endT secs = es ++ [⟨task, st, some endT, secs⟩] := by
  induction es with
  | nil => simp [setEntryFinal]
  | cons e tl ih => simp [setEntryFinal, ih]

theorem filter_pend_setEntryPending (es : List SessionEntry) (i : Nat) (task : String)
    (ei : SessionEntry) (hi : es[i]? = some ei)
    (h : es.filter (fun e => e.endTime.isNone) = []) :
    (setEntryPending es i task).filter (fun e => e.endTime.isNone) =
      [{ ei with task := task, endTime := none }] := by
  induction es generalizing i with
  | nil => simp at hi
  | cons e tl ih =>
    by_cases hp : e.endTime.isNone = true
    · simp [List.filter_cons, hp] at h
    · simp only [List.filter_cons, hp, Bool.false_eq_true, if_neg, if_false] at h
      cases i with
      | zero =>
        have he : e = ei := by simpa using hi
        subst he
        simp [setEntryPending, List.filter_cons, h]
      | succ j =>
        have hi2 : tl[j]? = some ei := by simpa using hi
        simp [setEntryPending, List.filter_cons, hp, ih j hi2 h]

theorem filter_pend_setEntryFinal (es : List SessionEntry) (i : Nat) (task : String)
    (st endT secs : Int) (ei p : SessionEntry) (hi : es[i]? = some ei)
    (hpend : ei.endTime = none)
    (h : es.filter (fun x => x.endTime.isNone) = [p]) :
    (setEntryFinal es i task st endT secs).filter (fun x => x.endTime.isNone) = [] := by
  induction es generalizing i with
  | nil => simp at hi
  | cons e tl ih =>
    cases i with
    | zero =>
      simp at hi
      subst hi
      rw [List.filter_cons] at h
      simp only [hpend, Option.isNone_none, if_pos] at h
      have htl : tl.filter (fun x => x.endTime.isNone) = [] := by
        simpa using congrArg List.tail h
      simp [setEntryFinal, List.filter_cons, htl]
    | succ j =>
      simp at hi
      rw [List.filter_cons] at h
      by_cases hp : e.endTime.isNone
      · simp only [hp, if_pos] at h
        have htl : tl.filter (fun x => x.endTime.isNone) = [] := by
          simpa using congrArg List.tail h
        have : ei ∈ tl.filter (fun x => x.endTime.isNone) := by
          refine List.mem_filter.mpr ⟨?_, by simp [hpend]⟩
          obtain ⟨hlt, hx⟩ := List.getElem?_eq_some_iff.mp hi
          exact hx ▸ List.getElem_mem hlt
        rw [htl] at this
        simp at this
      · simp only [hp] at h
        simp only [Bool.false_eq_true, if_neg] at h
        simp [setEntryFinal, List.filter_cons, hp, ih j hi h]

theorem findPendingIdx_none (es : List SessionEntry)
    (h : es.filter (fun e => e.endTime.isNone) = []) : findPendingIdx es = none := by
  induction es with
  | nil => simp [findPendingIdx]
  | cons e tl ih =>
    rw [List.filter_cons] at h
    by_cases hp : e.endTime.isNone
    · simp [hp] at h
    · simp only [hp] at h
      simp only [Bool.false_eq_true, if_neg] at h
      simp [findPendingIdx, hp, ih h]

theorem append_eq_singleton_mid {α : Type} (A X B : List α) (p : α)
    (h : A ++ X ++ B = [p]) (hX : X ≠ []) : A = [] ∧ X = [p] ∧ B = [] := by
  cases A with
  | cons a t =>
    simp at h
    exact absurd (by tauto : X = []) hX
  | nil =>
    simp only [List.nil_append] at h
    cases X with
    | nil => exact absurd rfl hX
    | cons x xt =>
      simp at h
      have hx : x = p := by tauto
      have hxt : xt = [] := by tauto
      exact ⟨rfl, by simp [hx, hxt], by tauto⟩

/-! ## Locating entries -/

theorem findSessionEntryAnywhere_none (days : List (Int × DayRecord)) (t : Int)
    (h : findSessionEntryAnywhere days t = none) :
    ∀ e ∈ days.flatMap (fun p => p.2.entries.getD []), e.start ≠ t := by
  induction days with
  | nil => simp
  | cons p tl ih =>
    obtain ⟨a, r⟩ := p
    intro e he
    simp only [List.flatMap_cons, List.mem_append] at he
    cases hf : findStartIdx (r.entries.getD []) t with
    | some i => simp [findSessionEntryAnywhere, hf] at h
    | none =>
      simp only [findSessionEntryAnywhere, hf] at h
      rcases he with he | he
      · exact (findStartIdx_none_iff _ t).mp hf e he
      · exact ih h e he

theorem findSessionEntryAnywhere_some (days : List (Int × DayRecord)) (t : Int)
    (d : Int) (i : Nat) (hnd : (days.map Prod.fst).Nodup)
    (h : findSessionEntryAnywhere days t = some (d, i)) :
    ∃ r ei, alGet days d = some r ∧ (r.entries.getD [])[i]? = some ei ∧ ei.start = t := by
  induction days with
  | nil => simp [findSessionEntryAnywhere] at h
  | cons p tl ih =>
    obtain ⟨a, r⟩ := p
    cases hf : findStartIdx (r.entries.getD []) t with
    | some j =>
      simp only [findSessionEntryAnywhere, hf] at h
      obtain ⟨hd, hj⟩ := Prod.mk.injEq .. ▸ (Option.some.injEq _ _).mp h
      subst hd hj
      obtain ⟨e, he, hs⟩ := findStartIdx_some _ _ _ hf
      exact ⟨r, e, by simp [alGet], he, hs⟩
    | none =>
      simp only [findSessionEntryAnywhere, hf] at h
      simp only [List.map_cons, List.nodup_cons] at hnd
      obtain ⟨r', ei, hget, hei, hs⟩ := ih hnd.2 h
      have hda : d ≠ a := fun hq => hnd.1 (hq ▸ alGet_mem_keys tl d r' hget)
      exact ⟨r', ei, by simp [alGet, Ne.symm hda, hget], hei, hs⟩

theorem findSessionEntry_some (s : ProjectSnapshot) (day t : Int) (i : Nat)
    (h : findSessionEntry s day t = some i) :
    ∃ r ei, alGet s.days day = some r ∧ (r.entries.getD [])[i]? = some ei ∧ ei.start = t := by
  unfold findSessionEntry at h
  cases hr : alGet s.days day with
  | none => simp [entriesOf, hr, findStartIdx] at h
  | some r =>
    obtain ⟨e, he, hs⟩ := findStartIdx_some _ _ _ (by simpa [entriesOf, hr] using h)
    exact ⟨r, e, rfl, he, hs⟩

theorem locateEntry_some (s : ProjectSnapshot) (pd sd t d : Int) (i : Nat)
    (hnd : (s.days.map Prod.fst).Nodup)
    (h : locateEntry s pd sd t = some (d, i)) :
    ∃ r ei, alGet s.days d = some r ∧ (r.entries.getD [])[i]? = some ei ∧ ei.start = t := by
  unfold locateEntry at h
  cases h1 : findSessionEntry s pd t with
  | some j =>
    rw [h1] at h
    simp only [Option.some.injEq, Prod.mk.injEq] at h
    obtain ⟨hd, hi⟩ := h
    subst hd hi
    exact findSessionEntry_some s pd t _ h1
  | none =>
    rw [h1] at h
    cases h2 : findSessionEntry s sd t with
    | some j =>
      rw [h2] at h
      simp only [Option.some.injEq, Prod.mk.injEq] at h
      obtain ⟨hd, hi⟩ := h
      subst hd hi
      exact findSessionEntry_some s sd t _ h2
    | none =>
      rw [h2] at h
      exact findSessionEntryAnywhere_some s.days t d i hnd h

theorem locateEntry_none (s : ProjectSnapshot) (pd sd t : Int)
    (h : locateEntry s pd sd t = none) : ∀ e ∈ allEntries s, e.start ≠ t := by
  unfold locateEntry at h
  cases h1 : findSessionEntry s pd t with
  | some j => simp [h1] at h
  | none =>
    rw [h1] at h
    cases h2 : findSessionEntry s sd t with
    | some j => simp [h2] at h
    | none =>
      rw [h2] at h
      exact findSessionEntryAnywhere_none s.days t h

theorem mem_entriesOf_allEntries (s : ProjectSnapshot) (d : Int) (e : SessionEntry)
    (h : e ∈ entriesOf s d) : e ∈ allEntries s := by
  unfold entriesOf at h
  cases hr : alGet s.days d with
  | none => simp [hr] at h
  | some r =>
    rw [hr] at h
    obtain ⟨A, B, hAB, -⟩ := allEntries_decomp s d r hr
    rw [hAB]
    simp [h]

/-! ## Pending-entry bookkeeping under the mutations -/

theorem pendings_eq_filter (s : ProjectSnapshot) :
    pendings s = (allEntries s).filter (fun e => e.endTime.isNone) := rfl

theorem pendings_ensure (s : ProjectSnapshot) (d : Int) :
    pendings (ensureDayRecordS s d) = pendings s := by
  simp [pendings, allEntries_ensure]

theorem pendings_startMutation (tz : Int) (s : ProjectSnapshot) (task : String) (at_ : Int)
    (hps : pendings s = []) :
    ∃ e, pendings (startMutation tz s task at_) = [e] ∧ e.start = at_ := by
  set d := formatLocalDay tz at_ with hd
  obtain ⟨A, B, hAB, hupd⟩ :=
    allEntries_decomp (ensureDayRecordS s d) d _ (alGet_ensure_self s d)
  have hflt : A.filter (fun e => e.endTime.isNone) ++
      (entriesOf s d).filter (fun e => e.endTime.isNone) ++
      B.filter (fun e => e.endTime.isNone) = [] := by
    have : pendings (ensureDayRecordS s d) = [] := by rw [pendings_ensure, hps]
    rw [pendings_eq_filter, hAB] at this
    simpa [List.filter_append] using this
  obtain ⟨hAes, hB⟩ := List.append_eq_nil.mp hflt
  obtain ⟨hA, hes⟩ := List.append_eq_nil.mp hAes
  have hpend : pendings (startMutation tz s task at_) =
      ((ensurePendingEntryR ⟨dayTotal s d, dayTasks s d, some (entriesOf s d)⟩ task
        at_).entries.getD []).filter (fun e => e.endTime.isNone) := by
    have hone : pendings (startMutation tz s task at_) =
        pendings (updateDay (ensureDayRecordS s d) d
          fun r => ensurePendingEntryR r task at_) := rfl
    rw [hone, pendings_eq_filter, hupd]
    simp [List.filter_append, hA, hB]
  cases hf : findStartIdx (entriesOf s d) at_ with
  | some i =>
    obtain ⟨ei, hi, hstart⟩ := findStartIdx_some _ _ _ hf
    refine ⟨{ ei with task := task, endTime := none }, ?_, hstart⟩
    rw [hpend]
    simp only [ensurePendingEntryR, hf, Option.getD_some]
    exact filter_pend_setEntryPending _ i task ei hi hes
  | none =>
    refine ⟨⟨task, at_, none, 0⟩, ?_, rfl⟩
    rw [hpend]
    simp only [ensurePendingEntryR, hf, Option.getD_some]
    simp [List.filter_append, hes]

theorem pendings_stopSingleDay (s : ProjectSnapshot) (c : ActiveSession)
    (effStop secs : Int) (d : Int) (i : Nat) (r : DayRecord) (ei p : SessionEntry)
    (hr : alGet s.days d = some r) (hi : (r.entries.getD [])[i]? = some ei)
    (hpend : ei.endTime = none) (hps : pendings s = [p]) :
    pendings (stopSingleDay s c effStop secs d i) = [] := by
  obtain ⟨l, hl⟩ : ∃ l, r.entries = some l := by
    cases hre : r.entries with
    | none => rw [hre] at hi; simp at hi
    | some l => exact ⟨l, rfl⟩
  have hens : ensureDayRecordS s d = s := ensure_of_entries_some s d r l hr hl
  obtain ⟨A, B, hAB, hupd⟩ := allEntries_decomp s d r hr
  have hflt : A.filter (fun e => e.endTime.isNone) ++
      ((r.entries.getD []).filter (fun e => e.endTime.isNone) ++
        B.filter (fun e => e.endTime.isNone)) = [p] := by
    have := hps
    rw [pendings_eq_filter, hAB] at this
    simpa [List.filter_append, List.append_assoc] using this
  have hne : (r.entries.getD []).filter (fun e => e.endTime.isNone) ≠ [] := by
    intro hnil
    have hmem : ei ∈ (r.entries.getD []).filter (fun e => e.endTime.isNone) := by
      refine List.mem_filter.mpr ⟨?_, by simp [hpend]⟩
      obtain ⟨hlt, hx⟩ := List.getElem?_eq_some_iff.mp hi
      exact hx ▸ List.getElem_mem hlt
    rw [hnil] at hmem
    simp at hmem
  obtain ⟨hA, hes, hB⟩ := append_eq_singleton_mid _ _ _ p (by simpa [List.append_assoc] using hflt) hne
  unfold stopSingleDay
  rw [hens, pendings_eq_filter, hupd]
  simp only [List.filter_append, hA, hB]
  simp [filter_pend_setEntryFinal _ i c.task c.start effStop secs ei p hi hpend hes]

theorem pendings_stopCrossDay (tz : Int) (s : ProjectSnapshot) (c : ActiveSession)
    (effStop : Int) (d : Int) (i : Nat) (sd : Int) (r : DayRecord) (ei p : SessionEntry)
    (hr : alGet s.days d = some r) (hi : (r.entries.getD [])[i]? = some ei)
    (hpend : ei.endTime = none) (hps : pendings s = [p]) :
    pendings (stopCrossDay tz s c effStop d i sd) = [] := by
  obtain ⟨l, hl⟩ : ∃ l, r.entries = some l := by
    cases hre : r.entries with
    | none => rw [hre] at hi; simp at hi
    | some l => exact ⟨l, rfl⟩
  have hens : ensureDayRecordS s d = s := ensure_of_entries_some s d r l hr hl
  obtain ⟨A, B, hAB, hupd⟩ := allEntries_decomp s d r hr
  have hflt : A.filter (fun e => e.endTime.isNone) ++
      ((r.entries.getD []).filter (fun e => e.endTime.isNone) ++
        B.filter (fun e => e.endTime.isNone)) = [p] := by
    have := hps
    rw [pendings_eq_filter, hAB] at this
    simpa [List.filter_append, List.append_assoc] using this
  have hne : (r.entries.getD []).filter (fun e => e.endTime.isNone) ≠ [] := by
    intro hnil
    have hmem : ei ∈ (r.entries.getD []).filter (fun e => e.endTime.isNone) := by
      refine List.mem_filter.mpr ⟨?_, by simp [hpend]⟩
      obtain ⟨hlt, hx⟩ := List.getElem?_eq_some_iff.mp hi
      exact hx ▸ List.getElem_mem hlt
    rw [hnil] at hmem
    simp at hmem
  obtain ⟨hA, hes, hB⟩ := append_eq_singleton_mid _ _ _ p (by simpa [List.append_assoc] using hflt) hne
  unfold stopCrossDay
  rw [hens]
  have hsA : pendings (updateDay s d fun r0 =>
      { r0 with
        entries := some (setEntryFinal (r0.entries.getD []) i c.task c.start
          (localMidnight tz effStop) (max 0 (jsRoundDiv1000 (localMidnight tz effStop - c.start))))
        totalSeconds := r0.totalSeconds + max 0 (jsRoundDiv1000 (localMidnight tz effStop - c.start))
        tasks := bumpTask r0.tasks c.task
          (max 0 (jsRoundDiv1000 (localMidnight tz effStop - c.start))) }) = [] := by
    rw [pendings_eq_filter, hupd]
    simp only [List.filter_append, hA, hB]
    simp [filter_pend_setEntryFinal _ i c.task c.start (localMidnight tz effStop)
      (max 0 (jsRoundDiv1000 (localMidnight tz effStop - c.start))) ei p hi hpend hes]
  set sA := updateDay s d _ with hsAdef
  obtain ⟨A2, B2, hAB2, hupd2⟩ :=
    allEntries_decomp (ensureDayRecordS sA sd) sd _ (alGet_ensure_self sA sd)
  have hflt2 : A2.filter (fun e => e.endTime.isNone) ++
      (entriesOf sA sd).filter (fun e => e.endTime.isNone) ++
      B2.filter (fun e => e.endTime.isNone) = [] := by
    have hze : pendings (ensureDayRecordS sA sd) = [] := by rw [pendings_ensure, hsA]
    rw [pendings_eq_filter, hAB2] at hze
    simpa [List.filter_append] using hze
  obtain ⟨hAes2, hB2⟩ := List.append_eq_nil.mp hflt2
  obtain ⟨hA2, hes2⟩ := List.append_eq_nil.mp hAes2
  rw [pendings_eq_filter, hupd2]
  simp [List.filter_append, hA2, hB2, hes2]

theorem findFirstIncompleteEntry_go_none (days : List (Int × DayRecord))
    (h : (days.flatMap fun q => q.2.entries.getD []).filter (fun e => e.endTime.isNone) = []) :
    findFirstIncompleteEntry.go days = none := by
  induction days with
  | nil => simp [findFirstIncompleteEntry.go]
  | cons q tl ih =>
    obtain ⟨a, r⟩ := q
    simp only [List.flatMap_cons, List.filter_append] at h
    obtain ⟨h1, h2⟩ := List.append_eq_nil.mp h
    simp [findFirstIncompleteEntry.go, findPendingIdx_none _ h1, ih h2]

theorem findFirstIncompleteEntry_none (s : ProjectSnapshot) (hps : pendings s = []) :
    findFirstIncompleteEntry s = none :=
  findFirstIncompleteEntry_go_none s.days hps

/-- `stopMutation` when the entry-location chain succeeds: the branch
on a midnight crossover, wrapped with `lastTask`/`current` updates. -/
theorem stopMutation_of_locate_some (tz : Int) (s : ProjectSnapshot) (c : ActiveSession)
    (stopTime : Int) (d : Int) (i : Nat)
    (hloc : locateEntry s (c.entryDay.getD (formatLocalDay tz c.start))
        (formatLocalDay tz (if stopTime < c.start then c.start else stopTime)) c.start =
      some (d, i)) :
    stopMutation tz s c stopTime =
      { (if d ≠ formatLocalDay tz (if stopTime < c.start then c.start else stopTime) then
          stopCrossDay tz s c (if stopTime < c.start then c.start else stopTime) d i
            (formatLocalDay tz (if stopTime < c.start then c.start else stopTime))
        else
          stopSingleDay s c (if stopTime < c.start then c.start else stopTime)
            (max 0 (jsRoundDiv1000 ((if stopTime < c.start then c.start else stopTime) - c.start)))
            d i) with
        lastTask := some c.task, current := none } := by
  simp only [stopMutation, hloc]

theorem getElem?_setEntryFinal (es : List SessionEntry) (i : Nat) (t : String)
    (st endT secs : Int) (x : SessionEntry) (h : es[i]? = some x) :
    (setEntryFinal es i t st endT secs)[i]? = some ⟨t, st, some endT, secs⟩ := by
  induction es generalizing i with
  | nil => simp at h
  | cons e tl ih =>
    cases i with
    | zero => simp [setEntryFinal]
    | succ j =>
      have h2 : tl[j]? = some x := by simpa using h
      simpa [setEntryFinal] using ih j h2

/-! ## Accessor lemmas for the day-bucket updates -/

theorem entriesOf_updateDay_self (s : ProjectSnapshot) (d : Int) (f : DayRecord → DayRecord)
    (r : DayRecord) (h : alGet s.days d = some r) :
    entriesOf (updateDay s d f) d = (f r).entries.getD [] := by
  simp [entriesOf, alGet_updateDay_self _ _ _ _ h]

theorem entriesOf_updateDay_ne (s : ProjectSnapshot) (d d' : Int) (f : DayRecord → DayRecord)
    (h : d' ≠ d) : entriesOf (updateDay s d f) d' = entriesOf s d' := by
  simp [entriesOf, alGet_updateDay_ne _ _ _ _ h]

theorem dayTotal_updateDay_self (s : ProjectSnapshot) (d : Int) (f : DayRecord → DayRecord)
    (r : DayRecord) (h : alGet s.days d = some r) :
    dayTotal (updateDay s d f) d = (f r).totalSeconds := by
  simp [dayTotal, alGet_updateDay_self _ _ _ _ h]

theorem dayTotal_updateDay_ne (s : ProjectSnapshot) (d d' : Int) (f : DayRecord → DayRecord)
    (h : d' ≠ d) : dayTotal (updateDay s d f) d' = dayTotal s d' := by
  simp [dayTotal, alGet_updateDay_ne _ _ _ _ h]

theorem dayTasks_updateDay_self (s : ProjectSnapshot) (d : Int) (f : DayRecord → DayRecord)
    (r : DayRecord) (h : alGet s.days d = some r) :
    dayTasks (updateDay s d f) d = (f r).tasks := by
  simp [dayTasks, alGet_updateDay_self _ _ _ _ h]

theorem dayTasks_updateDay_ne (s : ProjectSnapshot) (d d' : Int) (f : DayRecord → DayRecord)
    (h : d' ≠ d) : dayTasks (updateDay s d f) d' = dayTasks s d' := by
  simp [dayTasks, alGet_updateDay_ne _ _ _ _ h]

theorem entriesOf_ensure (s : ProjectSnapshot) (d d' : Int) :
    entriesOf (ensureDayRecordS s d) d' = entriesOf s d' := by
  by_cases h : d' = d
  · subst h
    simp [entriesOf, alGet_ensure_self]
  · simp [entriesOf, alGet_ensure_ne _ _ _ h]

theorem dayTotal_ensure (s : ProjectSnapshot) (d d' : Int) :
    dayTotal (ensureDayRecordS s d) d' = dayTotal s d' := by
  by_cases h : d' = d
  · subst h
    simp [dayTotal, alGet_ensure_self]
  · simp [dayTotal, alGet_ensure_ne _ _ _ h]

theorem dayTasks_ensure (s : ProjectSnapshot) (d d' : Int) :
    dayTasks (ensureDayRecordS s d) d' = dayTasks s d' := by
  by_cases h : d' = d
  · subst h
    simp [dayTasks, alGet_ensure_self]
  · simp [dayTasks, alGet_ensure_ne _ _ _ h]

theorem taskTotal_bumpTask_self (tasks : List (String × Int)) (t : String) (sec : Int) :
    (alGet (bumpTask tasks t sec) t).getD 0 = (alGet tasks t).getD 0 + sec := by
  simp [bumpTask, alGet_alSet_self]

/-- Field-level description of the crossover branch: the located
entry's bucket keeps its other entries, gets the located entry
finalised at `boundary` with the first partial duration folded into its
totals; the stop day's bucket gains an appended finalised entry from
`boundary` to `effStop` with the second partial duration folded into
its totals. -/
theorem stopCrossDay_spec (tz : Int) (s : ProjectSnapshot) (c : ActiveSession)
    (effStop : Int) (d : Int) (i : Nat) (sd : Int) (r : DayRecord) (l : List SessionEntry)
    (hr : alGet s.days d = some r) (hl : r.entries = some l) (hd : d ≠ sd) :
    entriesOf (stopCrossDay tz s c effStop d i sd) d =
      setEntryFinal l i c.task c.start (localMidnight tz effStop)
        (max 0 (jsRoundDiv1000 (localMidnight tz effStop - c.start))) ∧
    dayTotal (stopCrossDay tz s c effStop d i sd) d =
      r.totalSeconds + max 0 (jsRoundDiv1000 (localMidnight tz effStop - c.start)) ∧
    taskTotal (stopCrossDay tz s c effStop d i sd) d c.task =
      (alGet r.tasks c.task).getD 0 +
        max 0 (jsRoundDiv1000 (localMidnight tz effStop - c.start)) ∧
    entriesOf (stopCrossDay tz s c effStop d i sd) sd =
      entriesOf s sd ++ [⟨c.task, localMidnight tz effStop, some effStop,
        max 0 (jsRoundDiv1000 (effStop - localMidnight tz effStop))⟩] ∧
    dayTotal (stopCrossDay tz s c effStop d i sd) sd =
      dayTotal s sd + max 0 (jsRoundDiv1000 (effStop - localMidnight tz effStop)) ∧
    taskTotal (stopCrossDay tz s c effStop d i sd) sd c.task =
      taskTotal s sd c.task + max 0 (jsRoundDiv1000 (effStop - localMidnight tz effStop)) := by
  have hens : ensureDayRecordS s d = s := ensure_of_entries_some s d r l hr hl
  have hsd : sd ≠ d := Ne.symm hd
  have hr' : entriesOf s d = l := by simp [entriesOf, hr, hl]
  unfold stopCrossDay
  rw [hens]
  refine ⟨?_, ?_, ?_, ?_, ?_, ?_⟩
  · rw [entriesOf_updateDay_ne _ _ _ _ hd, entriesOf_ensure,
      entriesOf_updateDay_self _ _ _ _ hr]
    simp [hl]
  · rw [dayTotal_updateDay_ne _ _ _ _ hd, dayTotal_ensure,
      dayTotal_updateDay_self _ _ _ _ hr]
  · rw [taskTotal, dayTasks_updateDay_ne _ _ _ _ hd, dayTasks_ensure,
      dayTasks_updateDay_self _ _ _ _ hr]
    exact taskTotal_bumpTask_self r.tasks c.task _
  · rw [entriesOf_updateDay_self _ _ _ _ (alGet_ensure_self _ sd)]
    simp [entriesOf_updateDay_ne _ _ _ _ hsd]
  · rw [dayTotal_updateDay_self _ _ _ _ (alGet_ensure_self _ sd)]
    simp [dayTotal_updateDay_ne _ _ _ _ hsd]
  · rw [taskTotal, dayTasks_updateDay_self _ _ _ _ (alGet_ensure_self _ sd)]
    have := taskTotal_bumpTask_self
      (dayTasks (updateDay s d fun r0 =>
        { r0 with
          entries := some (setEntryFinal (r0.entries.getD []) i c.task c.start
            (localMidnight tz effStop)
            (max 0 (jsRoundDiv1000 (localMidnight tz effStop - c.start))))
          totalSeconds := r0.totalSeconds +
            max 0 (jsRoundDiv1000 (localMidnight tz effStop - c.start))
          tasks := bumpTask r0.tasks c.task
            (max 0 (jsRoundDiv1000 (localMidnight tz effStop - c.start))) }) sd) c.task
      (max 0 (jsRoundDiv1000 (effStop - localMidnight tz effStop)))
    rw [this, dayTasks_updateDay_ne _ _ _ _ hsd]
    rfl

/-! ## `Math.round` arithmetic -/

theorem jsRoundDiv1000_thousand (N : Nat) : jsRoundDiv1000 (1000 * (N : Int)) = N := by
  unfold jsRoundDiv1000
  have h1 : (1000 * (N : Int) + 500) = ((1000 * N + 500 : Nat) : Int) := by push_cast; ring
  have h2 : ((1000 : Nat) : Int) = 1000 := by norm_num
  rw [h1, ← h2, ← Int.ofNat_fdiv]
  have h3 : (1000 * N + 500) / 1000 = N := by omega
  rw [h3]

/-! ## Claim theorems -/

/-- C1: the claim says a save fails with `ConflictError` exactly when
both the written snapshot and the on-disk snapshot carry a defined
`lastModified` that differ, so a never-before-persisted project's first
write always succeeds.  The code contradicts this:
`readProjectSnapshot` stamps `lastModified := Date.now()` on a missing
file, so the snapshot of a brand-new project (read at clock 1000) holds
`lastModified = some 1000`, and the save's re-read of the still-missing
file at clock 1001 yields `some 1001`; the values differ and the very
first write raises `SNAPSHOT_CONFLICT` even though no file exists on
disk at all. -/
theorem c1_new_project_first_write_conflicts :
    readProjectSnapshot 1000 ⟨.missing, .missing⟩ =
      { days := [], lastTask := none, current := none,
        version := none, lastModified := some 1000 } ∧
    saveProjectSnapshot 1001 1001 ⟨true, true, true, true⟩ ⟨.missing, .missing⟩
        (readProjectSnapshot 1000 ⟨.missing, .missing⟩) =
      .error .conflict := by
  constructor
  · rfl
  · rfl

/-- The backup file used in the C6 demonstration. -/
def c6bakRaw : ProjectSnapshot :=
  { days := [(20230, ⟨10, [("a", 10)], some []⟩)]
    lastTask := some "a"
    current := none
    version := some 1
    lastModified := some 42 }

/-- C6: the claim says a read of a corrupt snapshot file first attempts
recovery from the sibling backup, and a missing file yields the empty
default with no `lastModified`.  The code does neither: the single
catch of `readProjectSnapshot` returns
`{ days: {}, lastModified: Date.now() }` for corrupt and missing files
alike, never consulting the `.bak` sibling (which `atomicWrite`
nevertheless keeps writing); the spec-modelled read
(`specReadProjectSnapshot`) recovers the backup and differs from the
code. -/
theorem c6_corrupt_read_ignores_backup :
    readProjectSnapshot 999 ⟨.corrupt, .parsed c6bakRaw⟩ =
      { days := [], lastTask := none, current := none,
        version := none, lastModified := some 999 } ∧
    specReadProjectSnapshot ⟨.corrupt, .parsed c6bakRaw⟩ = normalizeParsed c6bakRaw ∧
    readProjectSnapshot 999 ⟨.corrupt, .parsed c6bakRaw⟩ ≠
      specReadProjectSnapshot ⟨.corrupt, .parsed c6bakRaw⟩ ∧
    (readProjectSnapshot 999 ⟨.missing, .missing⟩).lastModified ≠ none := by
  refine ⟨rfl, rfl, ?_, ?_⟩
  · decide
  · decide

/-- C7: the claim says initialisation stops a recovered `current`
session only when the shared last-activity timestamp is stale beyond
the idle threshold, and observes fresh sessions passively.  The code
never consults the threshold: `Tracker.init` invokes `stop` whenever an
active session and a (non-zero) persisted last-activity timestamp
exist.  Here the timestamp is 1 second old — far within the 5-minute
`idleThreshold` — yet the session is stopped (at the clamped recovery
time `max(start, min(lastActivity, now)) = 999000`, which does satisfy
the claimed bound `start ≤ recovered ≤ now`). -/
theorem c7_fresh_session_stopped_on_init :
    (1000000 : Int) - 999000 < idleThreshold ∧
    initAutoStop (some 500000) (some 999000) 1000000 = some 999000 ∧
    (500000 : Int) ≤ 999000 ∧ (999000 : Int) ≤ 1000000 := by
  refine ⟨by decide, rfl, by decide, by decide⟩

/-- C10: after the optimistic-lock check passes, no failure of the
underlying file writes can surface to the caller: the only error
`saveProjectSnapshot` ever returns is the `SNAPSHOT_CONFLICT`, and even
when the temp write, rename and fallback copy all fail the call returns
successfully, the in-memory cache is updated with the freshly stamped
snapshot, and the target file is simply left unchanged. -/
theorem c10_save_errors_only_on_conflict :
    (∀ (readNow writeNow : Int) (fs : FsBehavior) (disk : Disk)
        (snapshot : ProjectSnapshot) (e : SaveError),
      saveProjectSnapshot readNow writeNow fs disk snapshot = .error e →
      snapshotConflict readNow disk snapshot = true ∧ e = .conflict) ∧
    (∀ (readNow writeNow : Int) (disk : Disk) (snapshot : ProjectSnapshot),
      snapshotConflict readNow disk snapshot = false →
      saveProjectSnapshot readNow writeNow ⟨false, false, false, false⟩ disk snapshot =
        .ok { serializable := serializeSnapshot snapshot writeNow
              disk := disk
              cache := serializeSnapshot snapshot writeNow }) := by
  constructor
  · intro readNow writeNow fs disk snapshot e h
    unfold saveProjectSnapshot at h
    by_cases hc : snapshotConflict readNow disk snapshot
    · rw [if_pos hc] at h
      exact ⟨hc, (Except.error.injEq _ _).mp h.symm |>.symm⟩
    · rw [if_neg hc] at h
      exact absurd h (by simp)
  · intro readNow writeNow disk snapshot h
    unfold saveProjectSnapshot
    rw [if_neg (by simp [h])]
    rfl

/-- C10 witness: the save of an unmodified-snapshot write against a
missing file with every file-system operation failing still returns
success with the cache updated, and the conflicting first-write of C1's
scenario is (as the only possible error) a conflict. -/
theorem c10_save_errors_only_on_conflict_witness :
    (snapshotConflict 1001 ⟨.missing, .missing⟩
        (readProjectSnapshot 1000 ⟨.missing, .missing⟩) = true ∧
      SaveError.conflict = SaveError.conflict) ∧
    saveProjectSnapshot 5 7 ⟨false, false, false, false⟩ ⟨.missing, .missing⟩
        { days := [], lastTask := none, current := none, version := none, lastModified := none } =
      .ok { serializable := serializeSnapshot
              { days := [], lastTask := none, current := none,
                version := none, lastModified := none } 7
            disk := ⟨.missing, .missing⟩
            cache := serializeSnapshot
              { days := [], lastTask := none, current := none,
                version := none, lastModified := none } 7 } := by
  constructor
  · exact c10_save_errors_only_on_conflict.1 1001 1001 ⟨true, true, true, true⟩
      ⟨.missing, .missing⟩ (readProjectSnapshot 1000 ⟨.missing, .missing⟩) .conflict rfl
  · exact c10_save_errors_only_on_conflict.2 5 7 ⟨.missing, .missing⟩
      { days := [], lastTask := none, current := none, version := none, lastModified := none } rfl

/-- C2: `Tracker.start` rejects with the already-running warning, and
persists nothing, whenever the freshly refreshed snapshot already has a
non-null `current` — and when the main save hits `SNAPSHOT_CONFLICT`
and the conflict-triggered refresh reveals a snapshot whose `current`
is set, start aborts with the already-running condition and performs no
further write (the mutation is never reapplied): the only persists in
that case are the earlier pending-entry resolutions. -/
theorem c2_start_surfaces_already_running :
    (∀ (env : StartEnv) (task : String) (at_ : Int) (c : ActiveSession),
      env.refreshed.current = some c →
      startProcedure env task at_ = (.alreadyRunning, [])) ∧
    (∀ (env : StartEnv) (task : String) (at_ : Int) (s : ProjectSnapshot)
        (ws : List ProjectSnapshot) (c : ActiveSession),
      env.refreshed.current = none →
      env.hasActiveSession = false →
      resolveLoop env.tz env.resEnv env.resFuel 0 env.refreshed = .resolved s ws →
      s.current = none →
      env.mainSaveOk = false →
      env.conflictRefreshed.current = some c →
      startProcedure env task at_ = (.conflictAlreadyRunning, ws)) := by
  constructor
  · intro env task at_ c h
    simp [startProcedure, h]
  · intro env task at_ s ws c h1 h2 h3 h4 h5 h6
    simp [startProcedure, h1, h2, h3, h4, h5, h6]

/-- Resolution environment for the C2 witness: the user always confirms,
submits nothing, and saves never conflict (the loop exits at once on a
pending-free snapshot). -/
def c2resEnv : ResEnv :=
  ⟨fun _ => true, fun _ => none, fun _ => true, fun _ => 0,
   fun _ => ⟨[], none, none, none, none⟩⟩

/-- C2 witness environment: refreshed snapshot already has `current`. -/
def c2envA : StartEnv :=
  ⟨0, ⟨[], none, some ⟨"x", 0, none⟩, none, none⟩, false, [], c2resEnv, 1,
   true, 99, ⟨[], none, none, none, none⟩, none⟩

/-- C2 witness environment: clean refresh, conflicting save, and a
conflict-refresh that shows another window's running timer. -/
def c2envB : StartEnv :=
  ⟨0, ⟨[], none, none, none, none⟩, false, [], c2resEnv, 1,
   false, 99, ⟨[], none, some ⟨"y", 5, none⟩, none, none⟩, none⟩

theorem c2_start_surfaces_already_running_witness :
    startProcedure c2envA "t" 0 = (.alreadyRunning, []) ∧
    startProcedure c2envB "t" 0 = (.conflictAlreadyRunning, []) :=
  ⟨c2_start_surfaces_already_running.1 c2envA "t" 0 ⟨"x", 0, none⟩ rfl,
   c2_start_surfaces_already_running.2 c2envB "t" 0 ⟨[], none, none, none, none⟩ []
     ⟨"y", 5, none⟩ rfl rfl rfl rfl rfl rfl⟩

/-- The raw file for the C9 counterexample: a snapshot last stamped at
clock 5. -/
def c9raw : ProjectSnapshot := ⟨[], some "a", none, some 1, some 5⟩

/-- C9 counterexample: writing a snapshot back during the same
millisecond in which its `lastModified` was assigned (wall clock still
5) succeeds — no conflict, since the stamps agree — but the read-back
`lastModified` equals the old one instead of being strictly greater, so
the round-trip claim's strict-increase clause fails. -/
theorem c9_same_millisecond_write_not_strictly_greater :
    saveProjectSnapshot 7 5 ⟨true, true, true, true⟩ ⟨.parsed c9raw, .missing⟩
        (normalizeParsed c9raw) =
      .ok { serializable := normalizeParsed c9raw
            disk := ⟨.parsed (normalizeParsed c9raw), .parsed c9raw⟩
            cache := normalizeParsed c9raw } ∧
    (normalizeParsed c9raw).lastModified = some 5 ∧
    (readProjectSnapshot 9 ⟨.parsed (normalizeParsed c9raw), .parsed c9raw⟩).lastModified =
      some 5 ∧
    ¬ (5 : Int) < 5 := by
  refine ⟨rfl, rfl, rfl, by decide⟩

/-- C9 (amended): a successful save followed by a read of the resulting
file (same process, no intervening external write) reproduces `days`,
`current` and `lastTask` identically, with `version = 1` and with
`lastModified` equal to the wall clock of the write; the in-memory
cache holds the same stamped snapshot.  Whenever the write-time clock
strictly exceeds the snapshot's previous `lastModified` the read-back
stamp is strictly greater, as claimed. -/
theorem c9_round_trip :
    ∀ (s : ProjectSnapshot) (disk : Disk) (readNow writeNow anyNow : Int) (r : SaveResult),
      saveProjectSnapshot readNow writeNow ⟨true, true, true, true⟩ disk s = .ok r →
      readProjectSnapshot anyNow r.disk =
        { days := s.days, lastTask := s.lastTask, current := s.current,
          version := some 1, lastModified := some writeNow } ∧
      r.cache = serializeSnapshot s writeNow ∧
      ∀ lm, s.lastModified = some lm → lm < writeNow →
        ∃ lm', (readProjectSnapshot anyNow r.disk).lastModified = some lm' ∧ lm < lm' := by
  intro s disk readNow writeNow anyNow r h
  unfold saveProjectSnapshot at h
  by_cases hc : snapshotConflict readNow disk s
  · rw [if_pos hc] at h
    exact absurd h (by simp)
  · rw [if_neg hc] at h
    simp only [Except.ok.injEq] at h
    subst h
    have hdisk : (atomicWrite ⟨true, true, true, true⟩ disk (serializeSnapshot s writeNow)).main =
        .parsed (serializeSnapshot s writeNow) := by
      cases hm : disk.main <;> simp [atomicWrite, hm]
    have hread : readProjectSnapshot anyNow
        (atomicWrite ⟨true, true, true, true⟩ disk (serializeSnapshot s writeNow)) =
        { days := s.days, lastTask := s.lastTask, current := s.current,
          version := some 1, lastModified := some writeNow } := by
      unfold readProjectSnapshot
      rw [hdisk]
      simp [normalizeParsed, serializeSnapshot]
    refine ⟨hread, rfl, ?_⟩
    intro lm hlm hlt
    exact ⟨writeNow, by rw [hread], hlt⟩

/-- The snapshot written in the C9 witness (previous stamp 3). -/
def c9witSnap : ProjectSnapshot := ⟨[], some "a", none, none, some 3⟩

theorem c9_round_trip_witness :
    readProjectSnapshot 0
        (SaveResult.disk ⟨serializeSnapshot c9witSnap 5,
          ⟨.parsed (serializeSnapshot c9witSnap 5), .parsed c9witSnap⟩,
          serializeSnapshot c9witSnap 5⟩) =
      { days := [], lastTask := some "a", current := none,
        version := some 1, lastModified := some 5 } ∧
    SaveResult.cache ⟨serializeSnapshot c9witSnap 5,
        ⟨.parsed (serializeSnapshot c9witSnap 5), .parsed c9witSnap⟩,
        serializeSnapshot c9witSnap 5⟩ = serializeSnapshot c9witSnap 5 ∧
    ∀ lm, c9witSnap.lastModified = some lm → lm < 5 →
      ∃ lm', (readProjectSnapshot 0
          (SaveResult.disk ⟨serializeSnapshot c9witSnap 5,
            ⟨.parsed (serializeSnapshot c9witSnap 5), .parsed c9witSnap⟩,
            serializeSnapshot c9witSnap 5⟩)).lastModified = some lm' ∧ lm < lm' :=
  c9_round_trip c9witSnap ⟨.parsed c9witSnap, .missing⟩ 9 5 0
    ⟨serializeSnapshot c9witSnap 5,
      ⟨.parsed (serializeSnapshot c9witSnap 5), .parsed c9witSnap⟩,
      serializeSnapshot c9witSnap 5⟩ rfl

/-- C8: resolving a pending entry with a caller-supplied end time
strictly before the entry's start is rejected as a validation error —
the input can never be submitted, the prompt is abandoned, and the
resolution loop cancels having persisted nothing — while an end time
equal to the start passes validation and finalises the entry with
`seconds = 0`, folding the zero duration into the day's `totalSeconds`
and per-task totals. -/
theorem c8_manual_end_time_validation :
    (∀ (tz h m startDate endDate : Int),
      buildEndDateFromInput tz h m startDate = some endDate →
      endDate < startDate →
      validateEndTimeInput tz h m startDate = some "End time cannot be before start time" ∧
      (∀ (s : ProjectSnapshot) (day : Int) (idx : Nat) (e : SessionEntry),
        (entriesOf s day)[idx]? = some e → e.start = startDate →
        promptForManualEndTime tz s day idx (some (h, m)) = none) ∧
      (∀ (env : ResEnv) (fuel k : Nat) (s : ProjectSnapshot) (day : Int) (idx : Nat)
          (e : SessionEntry),
        findFirstIncompleteEntry s = some (day, idx) →
        (entriesOf s day)[idx]? = some e → e.start = startDate →
        env.choices k = true → env.inputs k = some (h, m) →
        resolveLoop tz env (fuel + 1) k s = .cancelled [])) ∧
    (∀ (tz h m startDate : Int),
      buildEndDateFromInput tz h m startDate = some startDate →
      validateEndTimeInput tz h m startDate = none ∧
      (∀ (r : DayRecord) (idx : Nat) (e : SessionEntry),
        (r.entries.getD [])[idx]? = some e → e.start = startDate →
        (finalizeManualEntryR r idx startDate).entries =
          some (setEntryFinal (r.entries.getD []) idx e.task e.start startDate 0) ∧
        (finalizeManualEntryR r idx startDate).totalSeconds = r.totalSeconds + 0 ∧
        alGet (finalizeManualEntryR r idx startDate).tasks e.task =
          some ((alGet r.tasks e.task).getD 0 + 0))) := by
  constructor
  · intro tz h m startDate endDate hbuild hlt
    have hval : validateEndTimeInput tz h m startDate =
        some "End time cannot be before start time" := by
      simp [validateEndTimeInput, hbuild, hlt]
    have hprompt : ∀ (s : ProjectSnapshot) (day : Int) (idx : Nat) (e : SessionEntry),
        (entriesOf s day)[idx]? = some e → e.start = startDate →
        promptForManualEndTime tz s day idx (some (h, m)) = none := by
      intro s day idx e he hstart
      simp [promptForManualEndTime, he, hstart, hval]
    refine ⟨hval, hprompt, ?_⟩
    intro env fuel k s day idx e hfind he hstart hch hin
    simp [resolveLoop, hfind, hch, hin, hprompt s day idx e he hstart]
  · intro tz h m startDate hbuild
    have hval : validateEndTimeInput tz h m startDate = none := by
      simp [validateEndTimeInput, hbuild]
    refine ⟨hval, ?_⟩
    intro r idx e he hstart
    have hzero : max 0 (jsRoundDiv1000 (startDate - e.start)) = 0 := by
      rw [hstart]
      simp [jsRoundDiv1000]
    simp only [finalizeManualEntryR, he, hzero]
    refine ⟨trivial, trivial, ?_⟩
    simp [bumpTask, alGet_alSet_self]

/-- C8 witness: with `tz = 0` and an entry started at `01:01` local
time, the submitted end time `01:00` builds to a timestamp strictly
before the start and is rejected (prompt abandoned, loop cancelled with
no writes), while the submitted end time `01:01` equals the start,
passes validation and finalises the entry with zero seconds folded into
the totals. -/
theorem c8_manual_end_time_validation_witness :
    (validateEndTimeInput 0 1 0 3660000 = some "End time cannot be before start time" ∧
      promptForManualEndTime 0
        ⟨[(0, ⟨5, [("x", 5)], some [⟨"x", 3660000, none, 0⟩]⟩)], none, none, none, none⟩
        0 0 (some (1, 0)) = none ∧
      resolveLoop 0 ⟨fun _ => true, fun _ => some (1, 0), fun _ => true, fun _ => 0,
          fun _ => ⟨[], none, none, none, none⟩⟩ 1 0
        ⟨[(0, ⟨5, [("x", 5)], some [⟨"x", 3660000, none, 0⟩]⟩)], none, none, none, none⟩ =
        .cancelled []) ∧
    (validateEndTimeInput 0 1 1 3660000 = none ∧
      (finalizeManualEntryR ⟨5, [("x", 5)], some [⟨"x", 3660000, none, 0⟩]⟩ 0 3660000).entries =
        some (setEntryFinal [⟨"x", 3660000, none, 0⟩] 0 "x" 3660000 3660000 0) ∧
      (finalizeManualEntryR ⟨5, [("x", 5)], some [⟨"x", 3660000, none, 0⟩]⟩ 0 3660000).totalSeconds =
        5 + 0 ∧
      alGet (finalizeManualEntryR ⟨5, [("x", 5)], some [⟨"x", 3660000, none, 0⟩]⟩ 0 3660000).tasks
          "x" = some ((alGet [("x", 5)] "x").getD 0 + 0)) := by
  have ha := c8_manual_end_time_validation.1 0 1 0 3660000 3600000 rfl (by decide)
  have hb := c8_manual_end_time_validation.2 0 1 1 3660000 rfl
  refine ⟨⟨ha.1, ?_, ?_⟩, ⟨hb.1, ?_⟩⟩
  · exact ha.2.1 _ 0 0 ⟨"x", 3660000, none, 0⟩ rfl rfl
  · exact ha.2.2 _ 0 0 _ 0 0 ⟨"x", 3660000, none, 0⟩ rfl rfl rfl rfl rfl
  · exact hb.2 ⟨5, [("x", 5)], some [⟨"x", 3660000, none, 0⟩]⟩ 0 ⟨"x", 3660000, none, 0⟩ rfl rfl

/-- A snapshot satisfying the C5 invariant on which the claim as stated
fails: the unique pending entry shares its `start` timestamp with an
earlier, already-finalised entry in the same bucket. -/
def c5snap : ProjectSnapshot :=
  ⟨[(0, ⟨1, [("a", 1)], some [⟨"a", 1000, some 2000, 1⟩, ⟨"b", 1000, none, 0⟩]⟩)],
   some "a", some ⟨"b", 1000, some 0⟩, some 1, some 1⟩

/-- C5 counterexample: from a snapshot satisfying the invariant (one
pending entry, matching `current.start`, duplicate-free day keys), Stop
persists a snapshot that violates it: the entry search matches the
*finalised* twin with the same start first, re-finalises it, clears
`current`, and leaves the pending entry pending — `current` is null but
a pending entry remains. -/
theorem c5_counterexample :
    Inv c5snap ∧
    c5snap.current = some ⟨"b", 1000, some 0⟩ ∧
    (c5snap.days.map Prod.fst).Nodup ∧
    (stopMutation 0 c5snap ⟨"b", 1000, some 0⟩ 3000).current = none ∧
    ¬ Inv (stopMutation 0 c5snap ⟨"b", 1000, some 0⟩ 3000) := by
  refine ⟨by decide, rfl, by decide, rfl, by decide⟩

/-- C5 (amended): the single-pending invariant — when `current` is set,
exactly one pending entry exists and its start equals `current.start`;
when `current` is null, no pending entry exists — is preserved by the
snapshots the operations persist, with the proviso forced by the
counterexample: for Stop, no other entry of the snapshot may carry the
stopped session's start timestamp unfinalised-or-finalised ambiguously
(formally: every entry bearing `current.start` is pending, so the
start-keyed search necessarily finds the pending one).  Start preserves
the invariant outright; from an invariant-satisfying state reached by
Start there is no pending entry left for resolution to touch, so
resolution persists nothing; and the `version`/`lastModified` stamping
of a save leaves the invariant untouched. -/
theorem c5_single_pending_invariant :
    (∀ (tz : Int) (s : ProjectSnapshot) (task : String) (at_ : Int),
      Inv s → s.current = none → Inv (startMutation tz s task at_)) ∧
    (∀ (tz : Int) (s : ProjectSnapshot) (c : ActiveSession) (stopTime : Int),
      Inv s → s.current = some c →
      (s.days.map Prod.fst).Nodup →
      (∀ e ∈ allEntries s, e.start = c.start → e.endTime = none) →
      Inv (stopMutation tz s c stopTime)) ∧
    (∀ s : ProjectSnapshot, Inv s → s.current = none → findFirstIncompleteEntry s = none) ∧
    (∀ (s : ProjectSnapshot) (writeNow : Int), Inv s → Inv (serializeSnapshot s writeNow)) := by
  refine ⟨?_, ?_, ?_, ?_⟩
  · intro tz s task at_ hInv hcur
    have hps : pendings s = [] := by simpa [Inv, hcur] using hInv
    obtain ⟨e, hpe, hstart⟩ := pendings_startMutation tz s task at_ hps
    have hcur' : (startMutation tz s task at_).current =
        some ⟨task, at_, some (formatLocalDay tz at_)⟩ := rfl
    simp only [Inv, hcur', hpe]
    exact hstart
  · intro tz s c stopTime hInv hcur hnd huniq
    simp only [Inv, hcur] at hInv
    obtain ⟨p, hps, hpstart⟩ : ∃ p, pendings s = [p] ∧ p.start = c.start := by
      cases hq : pendings s with
      | nil => rw [hq] at hInv; simp at hInv
      | cons a t =>
        cases t with
        | nil => rw [hq] at hInv; exact ⟨a, rfl, hInv⟩
        | cons b t2 => rw [hq] at hInv; simp at hInv
    have hpmem : p ∈ allEntries s := by
      have : p ∈ pendings s := by rw [hps]; simp
      exact (List.mem_filter.mp this).1
    cases hloc : locateEntry s (c.entryDay.getD (formatLocalDay tz c.start))
        (formatLocalDay tz (if stopTime < c.start then c.start else stopTime)) c.start with
    | none =>
      exact absurd hpstart (locateEntry_none s _ _ c.start hloc p hpmem)
    | some di =>
      obtain ⟨d, i⟩ := di
      obtain ⟨r, ei, hr, hi, heis⟩ := locateEntry_some s _ _ c.start d i hnd hloc
      have heimem : ei ∈ allEntries s := by
        refine mem_entriesOf_allEntries s d ei ?_
        unfold entriesOf
        rw [hr]
        obtain ⟨hlt, hx⟩ := List.getElem?_eq_some_iff.mp hi
        exact hx ▸ List.getElem_mem hlt
      have heipend : ei.endTime = none := huniq ei heimem heis
      rw [stopMutation_of_locate_some tz s c stopTime d i hloc]
      by_cases hdsd : d = formatLocalDay tz (if stopTime < c.start then c.start else stopTime)
      · rw [if_neg (by simp [hdsd])]
        show Inv _
        simp only [Inv]
        exact pendings_stopSingleDay s c _ _ d i r ei p hr hi heipend hps
      · rw [if_pos hdsd]
        show Inv _
        simp only [Inv]
        exact pendings_stopCrossDay tz s c _ d i _ r ei p hr hi heipend hps
  · intro s hInv hcur
    have hps : pendings s = [] := by simpa [Inv, hcur] using hInv
    exact findFirstIncompleteEntry_none s hps
  · intro s writeNow hInv
    exact hInv

/-- A clean running snapshot for the C5 witness. -/
def c5wit : ProjectSnapshot :=
  ⟨[(0, ⟨0, [], some [⟨"t", 5000, none, 0⟩]⟩)], some "t", some ⟨"t", 5000, some 0⟩, none, none⟩

theorem c5_single_pending_invariant_witness :
    Inv (startMutation 0 ⟨[], none, none, none, none⟩ "t" 5000) ∧
    Inv (stopMutation 0 c5wit ⟨"t", 5000, some 0⟩ 12000) ∧
    findFirstIncompleteEntry ⟨[], none, none, none, none⟩ = none ∧
    Inv (serializeSnapshot ⟨[], none, none, none, none⟩ 9) :=
  ⟨c5_single_pending_invariant.1 0 ⟨[], none, none, none, none⟩ "t" 5000 (by decide) rfl,
   c5_single_pending_invariant.2.1 0 c5wit ⟨"t", 5000, some 0⟩ 12000 (by decide) rfl
     (by decide) (by decide),
   c5_single_pending_invariant.2.2.1 ⟨[], none, none, none, none⟩ (by decide) rfl,
   c5_single_pending_invariant.2.2.2 ⟨[], none, none, none, none⟩ 9 (by decide)⟩

theorem entriesOf_meta (s : ProjectSnapshot) (a : Option String) (b : Option ActiveSession)
    (d : Int) : entriesOf { s with lastTask := a, current := b } d = entriesOf s d := rfl

theorem dayTotal_meta (s : ProjectSnapshot) (a : Option String) (b : Option ActiveSession)
    (d : Int) : dayTotal { s with lastTask := a, current := b } d = dayTotal s d := rfl

theorem taskTotal_meta (s : ProjectSnapshot) (a : Option String) (b : Option ActiveSession)
    (d : Int) (t : String) :
    taskTotal { s with lastTask := a, current := b } d t = taskTotal s d t := rfl

/-- The running snapshot of the C4 counterexample: a session started
half a second before local midnight. -/
def c4snap : ProjectSnapshot :=
  ⟨[(0, ⟨0, [], some [⟨"t", 86399500, none, 0⟩]⟩)], none,
   some ⟨"t", 86399500, some 0⟩, none, none⟩

/-- C4 counterexample: a session from half a second before local
midnight to half a second after it (tz = 0) is split into two finalised
entries of 1 second each — their sum is 2, while the whole session's
duration is 1 second (1000 ms, `Math.round`ed to 1), so the claim that
the two entries' seconds sum to the whole session's duration fails;
each half rounds up independently. -/
theorem c4_counterexample :
    entriesOf (stopMutation 0 c4snap ⟨"t", 86399500, some 0⟩ 86400500) 0 =
      [⟨"t", 86399500, some 86400000, 1⟩] ∧
    entriesOf (stopMutation 0 c4snap ⟨"t", 86399500, some 0⟩ 86400500) 1 =
      [⟨"t", 86400000, some 86400500, 1⟩] ∧
    max 0 (jsRoundDiv1000 ((86400500 : Int) - 86399500)) = 1 ∧
    (1 : Int) + 1 ≠ 1 := by
  refine ⟨by decide, by decide, by decide, by decide⟩

/-- C4 (amended): stopping a running session at an `effectiveStop`
whose local calendar day differs from the located entry's bucket
produces exactly the claimed shape — the located entry is finalised in
the original day ending exactly at local midnight, a new finalised
entry is appended to the new day's bucket starting at midnight and
ending at `effectiveStop`, each partial duration is added to its own
day's `totalSeconds` and per-task totals, and `current` is cleared —
with the seconds of the two entries being the independently rounded
partial durations `round((midnight-start)/1000)` and
`round((stop-midnight)/1000)`; their sum equals the whole session's
rounded duration when the split offsets are whole seconds (as in the
23:59:50 → 00:00:10 example) but may exceed it by one otherwise, as the
counterexample shows. -/
theorem c4_midnight_split :
    ∀ (tz : Int) (s : ProjectSnapshot) (c : ActiveSession) (d : Int) (i : Nat) (stop : Int),
      s.current = some c →
      c.entryDay = some d →
      findSessionEntry s d c.start = some i →
      c.start ≤ stop →
      formatLocalDay tz stop ≠ d →
      (stopMutation tz s c stop).current = none ∧
      entriesOf (stopMutation tz s c stop) d =
        setEntryFinal (entriesOf s d) i c.task c.start (localMidnight tz stop)
          (max 0 (jsRoundDiv1000 (localMidnight tz stop - c.start))) ∧
      (entriesOf (stopMutation tz s c stop) d)[i]? =
        some ⟨c.task, c.start, some (localMidnight tz stop),
          max 0 (jsRoundDiv1000 (localMidnight tz stop - c.start))⟩ ∧
      entriesOf (stopMutation tz s c stop) (formatLocalDay tz stop) =
        entriesOf s (formatLocalDay tz stop) ++
          [⟨c.task, localMidnight tz stop, some stop,
            max 0 (jsRoundDiv1000 (stop - localMidnight tz stop))⟩] ∧
      dayTotal (stopMutation tz s c stop) d =
        dayTotal s d + max 0 (jsRoundDiv1000 (localMidnight tz stop - c.start)) ∧
      dayTotal (stopMutation tz s c stop) (formatLocalDay tz stop) =
        dayTotal s (formatLocalDay tz stop) +
          max 0 (jsRoundDiv1000 (stop - localMidnight tz stop)) ∧
      taskTotal (stopMutation tz s c stop) d c.task =
        taskTotal s d c.task + max 0 (jsRoundDiv1000 (localMidnight tz stop - c.start)) ∧
      taskTotal (stopMutation tz s c stop) (formatLocalDay tz stop) c.task =
        taskTotal s (formatLocalDay tz stop) c.task +
          max 0 (jsRoundDiv1000 (stop - localMidnight tz stop)) := by
  intro tz s c d i stop hcur hday hfind hle hdsd
  have heff : (if stop < c.start then c.start else stop) = stop := if_neg (not_lt.mpr hle)
  obtain ⟨r, ei, hr, hi, -⟩ := findSessionEntry_some s d c.start i hfind
  obtain ⟨l, hl⟩ : ∃ l, r.entries = some l := by
    cases hre : r.entries with
    | none => rw [hre] at hi; simp at hi
    | some l => exact ⟨l, rfl⟩
  have hlocs : locateEntry s (c.entryDay.getD (formatLocalDay tz c.start))
      (formatLocalDay tz (if stop < c.start then c.start else stop)) c.start =
      some (d, i) := by
    unfold locateEntry
    rw [hday]
    simp only [Option.getD_some]
    rw [hfind]
  have hrw := stopMutation_of_locate_some tz s c stop d i hlocs
  rw [heff] at hrw
  have hd' : d ≠ formatLocalDay tz stop := Ne.symm hdsd
  rw [hrw, if_pos hd']
  have hesd : entriesOf s d = l := by simp [entriesOf, hr, hl]
  have htotd : dayTotal s d = r.totalSeconds := by simp [dayTotal, hr]
  have htskd : taskTotal s d c.task = (alGet r.tasks c.task).getD 0 := by
    simp [taskTotal, dayTasks, hr]
  obtain ⟨h1, h2, h3, h4, h5, h6⟩ :=
    stopCrossDay_spec tz s c stop d i (formatLocalDay tz stop) r l hr hl hd'
  have hli : l[i]? = some ei := by
    rw [hl] at hi
    simpa using hi
  refine ⟨rfl, ?_, ?_, ?_, ?_, ?_, ?_, ?_⟩
  · rw [entriesOf_meta, h1, hesd]
  · rw [entriesOf_meta, h1]
    exact getElem?_setEntryFinal l i c.task c.start (localMidnight tz stop) _ ei hli
  · rw [entriesOf_meta, h4]
  · rw [dayTotal_meta, h2, htotd]
  · rw [dayTotal_meta, h5]
  · rw [taskTotal_meta, h3, htskd]
  · rw [taskTotal_meta, h6]

/-- The running snapshot of the C4 witness: the claim's own example, a
session started at 23:59:50 (tz = 0). -/
def c4wit : ProjectSnapshot :=
  ⟨[(0, ⟨0, [], some [⟨"t", 86390000, none, 0⟩]⟩)], none,
   some ⟨"t", 86390000, some 0⟩, none, none⟩

theorem c4_midnight_split_witness :
    (stopMutation 0 c4wit ⟨"t", 86390000, some 0⟩ 86410000).current = none ∧
    entriesOf (stopMutation 0 c4wit ⟨"t", 86390000, some 0⟩ 86410000) 0 =
      setEntryFinal (entriesOf c4wit 0) 0 "t" 86390000 (localMidnight 0 86410000)
        (max 0 (jsRoundDiv1000 (localMidnight 0 86410000 - 86390000))) ∧
    (entriesOf (stopMutation 0 c4wit ⟨"t", 86390000, some 0⟩ 86410000) 0)[0]? =
      some ⟨"t", 86390000, some (localMidnight 0 86410000),
        max 0 (jsRoundDiv1000 (localMidnight 0 86410000 - 86390000))⟩ ∧
    entriesOf (stopMutation 0 c4wit ⟨"t", 86390000, some 0⟩ 86410000) (formatLocalDay 0 86410000) =
      entriesOf c4wit (formatLocalDay 0 86410000) ++
        [⟨"t", localMidnight 0 86410000, some 86410000,
          max 0 (jsRoundDiv1000 (86410000 - localMidnight 0 86410000))⟩] ∧
    dayTotal (stopMutation 0 c4wit ⟨"t", 86390000, some 0⟩ 86410000) 0 =
      dayTotal c4wit 0 + max 0 (jsRoundDiv1000 (localMidnight 0 86410000 - 86390000)) ∧
    dayTotal (stopMutation 0 c4wit ⟨"t", 86390000, some 0⟩ 86410000) (formatLocalDay 0 86410000) =
      dayTotal c4wit (formatLocalDay 0 86410000) +
        max 0 (jsRoundDiv1000 (86410000 - localMidnight 0 86410000)) ∧
    taskTotal (stopMutation 0 c4wit ⟨"t", 86390000, some 0⟩ 86410000) 0 "t" =
      taskTotal c4wit 0 "t" + max 0 (jsRoundDiv1000 (localMidnight 0 86410000 - 86390000)) ∧
    taskTotal (stopMutation 0 c4wit ⟨"t", 86390000, some 0⟩ 86410000) (formatLocalDay 0 86410000) "t" =
      taskTotal c4wit (formatLocalDay 0 86410000) "t" +
        max 0 (jsRoundDiv1000 (86410000 - localMidnight 0 86410000)) :=
  c4_midnight_split 0 c4wit ⟨"t", 86390000, some 0⟩ 0 0 86410000 rfl rfl rfl
    (by decide) (by decide)

/-- C3: starting a timer at `at_` on a snapshot that holds no entry
with that start timestamp, then stopping it `N` seconds later with no
midnight crossover, leaves exactly one finalised entry for the session
(its `end` is `at_ + 1000·N` and its `seconds` is exactly `N`),
increases that day's `totalSeconds` and the task's per-day total by
exactly `N`, and clears `current`. -/
theorem c3_start_then_stop_single_day :
    ∀ (tz : Int) (s0 : ProjectSnapshot) (t : String) (at_ : Int) (N : Nat),
      s0.current = none →
      (∀ e ∈ allEntries s0, e.start ≠ at_) →
      formatLocalDay tz (at_ + 1000 * (N : Int)) = formatLocalDay tz at_ →
      (startMutation tz s0 t at_).current =
        some ⟨t, at_, some (formatLocalDay tz at_)⟩ ∧
      (allEntries (stopMutation tz (startMutation tz s0 t at_)
          ⟨t, at_, some (formatLocalDay tz at_)⟩ (at_ + 1000 * (N : Int)))).filter
        (fun e => decide (e.start = at_)) =
        [⟨t, at_, some (at_ + 1000 * (N : Int)), (N : Int)⟩] ∧
      dayTotal (stopMutation tz (startMutation tz s0 t at_)
          ⟨t, at_, some (formatLocalDay tz at_)⟩ (at_ + 1000 * (N : Int)))
        (formatLocalDay tz at_) = dayTotal s0 (formatLocalDay tz at_) + N ∧
      taskTotal (stopMutation tz (startMutation tz s0 t at_)
          ⟨t, at_, some (formatLocalDay tz at_)⟩ (at_ + 1000 * (N : Int)))
        (formatLocalDay tz at_) t = taskTotal s0 (formatLocalDay tz at_) t + N ∧
      (stopMutation tz (startMutation tz s0 t at_)
          ⟨t, at_, some (formatLocalDay tz at_)⟩ (at_ + 1000 * (N : Int))).current = none := by
  intro tz s0 t at_ N hcur hfresh hnc
  set d := formatLocalDay tz at_ with hd
  set stop := at_ + 1000 * (N : Int) with hstopdef
  set s1 := startMutation tz s0 t at_ with hs1def
  set c1 : ActiveSession := ⟨t, at_, some d⟩ with hc1
  set r0 : DayRecord := ⟨dayTotal s0 d, dayTasks s0 d, some (entriesOf s0 d)⟩ with hr0
  set f1 : DayRecord → DayRecord := fun r => ensurePendingEntryR r t at_ with hf1def
  have hfreshd : findStartIdx (entriesOf s0 d) at_ = none :=
    (findStartIdx_none_iff _ _).mpr fun e he => hfresh e (mem_entriesOf_allEntries s0 d e he)
  have hf1 : f1 r0 = { r0 with entries := some (entriesOf s0 d ++ [⟨t, at_, none, 0⟩]) } := by
    simp only [hf1def, hr0, ensurePendingEntryR, Option.getD_some, hfreshd]
  have hs1get : alGet s1.days d = some (f1 r0) :=
    alGet_updateDay_self (ensureDayRecordS s0 d) d f1 r0 (alGet_ensure_self s0 d)
  have hs1entries : entriesOf s1 d = entriesOf s0 d ++ [⟨t, at_, none, 0⟩] := by
    simp [entriesOf, hs1get, hf1]
  have hle : at_ ≤ stop := by
    rw [hstopdef]
    have : (0 : Int) ≤ 1000 * (N : Int) := by positivity
    omega
  have heff : (if stop < at_ then at_ else stop) = stop := if_neg (not_lt.mpr hle)
  have hsec : max 0 (jsRoundDiv1000 (stop - at_)) = (N : Int) := by
    rw [show stop - at_ = 1000 * (N : Int) by rw [hstopdef]; ring, jsRoundDiv1000_thousand]
    exact max_eq_right (by positivity)
  have hfind : findSessionEntry s1 d at_ = some (entriesOf s0 d).length := by
    unfold findSessionEntry
    rw [hs1entries]
    exact findStartIdx_append_of_none _ _ _ hfreshd rfl
  have hlocs : locateEntry s1 (c1.entryDay.getD (formatLocalDay tz c1.start))
      (formatLocalDay tz (if stop < c1.start then c1.start else stop)) c1.start =
      some (d, (entriesOf s0 d).length) := by
    simp only [hc1, Option.getD_some, locateEntry, hfind]
  have hrw := stopMutation_of_locate_some tz s1 c1 stop d (entriesOf s0 d).length hlocs
  rw [heff] at hrw
  have hsd : formatLocalDay tz stop = d := hnc
  have hrw2 : stopMutation tz s1 c1 stop =
      { stopSingleDay s1 c1 stop (N : Int) d (entriesOf s0 d).length with
        lastTask := some c1.task, current := none } := by
    rw [hrw, if_neg (not_ne_iff.mpr hsd.symm), hsec]
  have hensS1 : ensureDayRecordS s1 d = s1 :=
    ensure_of_entries_some s1 d (f1 r0) (entriesOf s0 d ++ [⟨t, at_, none, 0⟩]) hs1get
      (by rw [hf1])
  have hfinal : setEntryFinal (entriesOf s0 d ++ [⟨t, at_, none, 0⟩])
      (entriesOf s0 d).length c1.task c1.start stop (N : Int) =
      entriesOf s0 d ++ [⟨t, at_, some stop, (N : Int)⟩] :=
    setEntryFinal_append_at_length (entriesOf s0 d) ⟨t, at_, none, 0⟩ c1.task c1.start stop
      (N : Int)
  refine ⟨rfl, ?_, ?_, ?_, ?_⟩
  · -- the filtered entry list
    obtain ⟨A, B, hAB, hupd⟩ :=
      allEntries_decomp (ensureDayRecordS s0 d) d r0 (alGet_ensure_self s0 d)
    have hall0 : allEntries s0 = A ++ entriesOf s0 d ++ B := by
      rw [← allEntries_ensure s0 d, hAB]
      rfl
    have hdays2 : (updateDay s1 d fun r =>
        { r with
          entries := some (setEntryFinal (r.entries.getD []) (entriesOf s0 d).length c1.task
            c1.start stop (N : Int))
          totalSeconds := r.totalSeconds + (N : Int)
          tasks := bumpTask r.tasks c1.task (N : Int) }).days =
        (updateDay (ensureDayRecordS s0 d) d fun r =>
          (fun r2 =>
            { r2 with
              entries := some (setEntryFinal (r2.entries.getD []) (entriesOf s0 d).length c1.task
                c1.start stop (N : Int))
              totalSeconds := r2.totalSeconds + (N : Int)
              tasks := bumpTask r2.tasks c1.task (N : Int) }) (f1 r)).days := by
      show alModify s1.days d _ = alModify (ensureDayRecordS s0 d).days d _
      have hsd1 : s1.days = alModify (ensureDayRecordS s0 d).days d f1 := rfl
      rw [hsd1, alModify_alModify]
    have hall2 : allEntries (stopMutation tz s1 c1 stop) =
        A ++ (entriesOf s0 d ++ [⟨t, at_, some stop, (N : Int)⟩]) ++ B := by
      rw [hrw2]
      show allEntries (stopSingleDay s1 c1 stop (N : Int) d (entriesOf s0 d).length) =
        A ++ (entriesOf s0 d ++ [⟨t, at_, some stop, (N : Int)⟩]) ++ B
      unfold stopSingleDay
      rw [hensS1]
      show (updateDay s1 d _).days.flatMap (fun p => p.2.entries.getD []) = _
      rw [hdays2]
      have := hupd fun r =>
        { (f1 r) with
          entries := some (setEntryFinal ((f1 r).entries.getD []) (entriesOf s0 d).length c1.task
            c1.start stop (N : Int))
          totalSeconds := (f1 r).totalSeconds + (N : Int)
          tasks := bumpTask (f1 r).tasks c1.task (N : Int) }
      rw [show ((updateDay (ensureDayRecordS s0 d) d fun r =>
          (fun r2 =>
            { r2 with
              entries := some (setEntryFinal (r2.entries.getD []) (entriesOf s0 d).length c1.task
                c1.start stop (N : Int))
              totalSeconds := r2.totalSeconds + (N : Int)
              tasks := bumpTask r2.tasks c1.task (N : Int) }) (f1 r)).days.flatMap
            (fun p => p.2.entries.getD [])) = allEntries (updateDay (ensureDayRecordS s0 d) d
              fun r =>
              { (f1 r) with
                entries := some (setEntryFinal ((f1 r).entries.getD []) (entriesOf s0 d).length
                  c1.task c1.start stop (N : Int))
                totalSeconds := (f1 r).totalSeconds + (N : Int)
                tasks := bumpTask (f1 r).tasks c1.task (N : Int) }) from rfl]
      rw [this]
      rw [hf1]
      simp only [Option.getD_some]
      rw [hfinal]
    rw [hall2]
    have hfA : A.filter (fun e => decide (e.start = at_)) = [] :=
      List.filter_eq_nil_iff.mpr fun e he => by
        simpa using hfresh e (by rw [hall0]; simp [he])
    have hfB : B.filter (fun e => decide (e.start = at_)) = [] :=
      List.filter_eq_nil_iff.mpr fun e he => by
        simpa using hfresh e (by rw [hall0]; simp [he])
    have hfes : (entriesOf s0 d).filter (fun e => decide (e.start = at_)) = [] :=
      List.filter_eq_nil_iff.mpr fun e he => by
        simpa using hfresh e (mem_entriesOf_allEntries s0 d e he)
    simp [List.filter_append, hfA, hfB, hfes]
  · rw [hrw2, dayTotal_meta]
    unfold stopSingleDay
    rw [hensS1, dayTotal_updateDay_self s1 d _ (f1 r0) hs1get, hf1]
  · rw [hrw2, taskTotal_meta]
    unfold stopSingleDay
    rw [hensS1, taskTotal, dayTasks_updateDay_self s1 d _ (f1 r0) hs1get, hf1]
    exact taskTotal_bumpTask_self (dayTasks s0 d) t (N : Int)
  · rw [hrw2]

/-- C3 witness: on the empty snapshot, start task "t" at 5000 and stop
7 seconds later (tz = 0): one finalised entry with seconds 7, day and
task totals increased by 7, `current` cleared. -/
theorem c3_start_then_stop_single_day_witness :
    (startMutation 0 ⟨[], none, none, none, none⟩ "t" 5000).current =
      some ⟨"t", 5000, some (formatLocalDay 0 5000)⟩ ∧
    (allEntries (stopMutation 0 (startMutation 0 ⟨[], none, none, none, none⟩ "t" 5000)
        ⟨"t", 5000, some (formatLocalDay 0 5000)⟩ (5000 + 1000 * ((7 : Nat) : Int)))).filter
      (fun e => decide (e.start = 5000)) =
      [⟨"t", 5000, some (5000 + 1000 * ((7 : Nat) : Int)), ((7 : Nat) : Int)⟩] ∧
    dayTotal (stopMutation 0 (startMutation 0 ⟨[], none, none, none, none⟩ "t" 5000)
        ⟨"t", 5000, some (formatLocalDay 0 5000)⟩ (5000 + 1000 * ((7 : Nat) : Int)))
      (formatLocalDay 0 5000) =
      dayTotal ⟨[], none, none, none, none⟩ (formatLocalDay 0 5000) + (7 : Nat) ∧
    taskTotal (stopMutation 0 (startMutation 0 ⟨[], none, none, none, none⟩ "t" 5000)
        ⟨"t", 5000, some (formatLocalDay 0 5000)⟩ (5000 + 1000 * ((7 : Nat) : Int)))
      (formatLocalDay 0 5000) "t" =
      taskTotal ⟨[], none, none, none, none⟩ (formatLocalDay 0 5000) "t" + (7 : Nat) ∧
    (stopMutation 0 (startMutation 0 ⟨[], none, none, none, none⟩ "t" 5000)
        ⟨"t", 5000, some (formatLocalDay 0 5000)⟩ (5000 + 1000 * ((7 : Nat) : Int))).current =
      none :=
  c3_start_then_stop_single_day 0 ⟨[], none, none, none, none⟩ "t" 5000 7 rfl
    (by intro e he; simp [allEntries] at he) (by decide)

end Tickeroo
